import Mathlib

/-!
Verification development for the reclassification paperwork processor
(src/reclassification_processor.py).

The Python code is shallowly embedded: pure string manipulation is
translated directly; calls into the `re` regex library are abstracted as
oracle parameters (`search : String → String → Bool` for `re.search` with
`re.IGNORECASE`, and `captureGroup : String → String → Option String` for
`re.search` followed by `.group(1)`); PDF file access is abstracted as
page-indexed text extraction.  All definitions follow the structure of the
source functions and keep their names.
-/

namespace Reclassification

/-- Result of `_identify_document_and_student` (a Python dict with three keys). -/
structure PageInfo where
  document_type : String
  student_id : String
  student_name : String
deriving Repr, DecidableEq

/-- One entry of `student_page_map[student_id]` (a Python dict with keys
`page_num`, `doc_type`, `student_name`). -/
structure AnchorEntry where
  page_num : Nat
  doc_type : String
  student_name : String
deriving Repr, DecidableEq

/-- The `DocumentInfo` dataclass. -/
structure DocumentInfo where
  file_path : String
  student_id : String
  student_name : String
  document_type : String
  pages : List Nat
  page_count : Nat
deriving Repr, DecidableEq

/-- One entry of the `DOCUMENT_PATTERNS` class attribute. -/
structure DocPattern where
  pattern : String
  title : String
deriving Repr, DecidableEq

/-- The ordered `DOCUMENT_PATTERNS` dict of the processor class. -/
def DOCUMENT_PATTERNS : List DocPattern :=
  [ ⟨"Teacher Evaluation for Reclassification|Criteria 2: Teacher Evaluation",
     "Teacher Recommendation Form"⟩,
    ⟨"Reclassification Meeting w/ Parent/Guardian|Alternate Reclassification IEP Meeting",
     "Reclassification Meeting"⟩,
    ⟨"Notification of English Language Program Exit",
     "Notification of English Language Program Exit"⟩ ]

/-- Left-to-right replacement of non-overlapping occurrences of a
pattern in a character list (the semantics of Python `str.replace`),
with explicit fuel for structural recursion. -/
def replace_chars : Nat → List Char → List Char → List Char → List Char
  | 0, l, _, _ => l
  | _ + 1, [], _, _ => []
  | fuel + 1, c :: rest, pat, rep =>
    if pat.isPrefixOf (c :: rest) then
      rep ++ replace_chars fuel ((c :: rest).drop pat.length) pat rep
    else c :: replace_chars fuel rest pat rep

/-- Python `str.replace` (for the non-empty patterns used here). -/
def str_replace (s pat rep : String) : String :=
  String.mk (replace_chars (s.data.length + 1) s.data pat.data rep.data)

/-- Python `str.strip()`: drop leading and trailing whitespace. -/
def py_strip (s : String) : String :=
  String.mk (((s.data.dropWhile Char.isWhitespace).reverse.dropWhile
    Char.isWhitespace).reverse)

/-- Python `str.lower()` (character-wise). -/
def str_lower (s : String) : String :=
  String.mk (s.data.map Char.toLower)

/-- The ligature replacement table of `_normalize_ligatures`. -/
def ligature_replacements : List (String × String) :=
  [("ﬁ", "fi"), ("ﬂ", "fl"), ("ﬀ", "ff"), ("ﬃ", "ffi"), ("ﬄ", "ffl")]

/-- `_normalize_ligatures`: sequential `str.replace` over the table. -/
def normalize_ligatures (text : String) : String :=
  ligature_replacements.foldl (fun t lr => str_replace t lr.1 lr.2) text

/-- Code-point lexicographic strict comparison of character lists
(the order Python uses to compare strings). -/
def chars_lt : List Char → List Char → Bool
  | [], [] => false
  | [], _ :: _ => true
  | _ :: _, [] => false
  | a :: as, b :: bs =>
    if a.toNat < b.toNat then true
    else if b.toNat < a.toNat then false
    else chars_lt as bs

/-- Strict lexicographic order on strings. -/
def str_lt (a b : String) : Bool := chars_lt a.data b.data

/-- Lexicographic order on strings (negation of the reversed strict
order; total because the strict order is trichotomous). -/
def str_le (a b : String) : Bool := !(chars_lt b.data a.data)

/-- The relation used to sort ledger keys (`sorted` over strings). -/
def ledger_le (a b : String) : Prop := str_le a b = true

instance : DecidableRel ledger_le := fun _ _ => by
  unfold ledger_le; infer_instance

instance : IsTotal String ledger_le := by
  constructor
  have hasymm : ∀ (l1 l2 : List Char),
      chars_lt l1 l2 = true → chars_lt l2 l1 = true → False := by
    intro l1
    induction l1 with
    | nil => intro l2 h12 h21; cases l2 <;> simp [chars_lt] at h12 h21
    | cons a as ih =>
      intro l2 h12 h21
      cases l2 with
      | nil => simp [chars_lt] at h12
      | cons b bs =>
        simp only [chars_lt] at h12 h21
        split_ifs at h12 h21 <;> first | omega | exact ih bs h12 h21
  intro a b
  unfold ledger_le str_le
  by_cases h : chars_lt b.data a.data = true
  · right
    cases h2 : chars_lt a.data b.data
    · simp
    · exact absurd (hasymm _ _ h2 h) (by simp)
  · left
    simp [h]

instance : IsTrans String ledger_le := by
  constructor
  have htrans : ∀ (l1 l2 l3 : List Char), chars_lt l1 l2 = true →
      chars_lt l2 l3 = true → chars_lt l1 l3 = true := by
    intro l1
    induction l1 with
    | nil =>
      intro l2 l3 h12 h23
      cases l2 with
      | nil => simp [chars_lt] at h12
      | cons b bs =>
        cases l3 with
        | nil => simp [chars_lt] at h23
        | cons c cs => simp [chars_lt]
    | cons a as ih =>
      intro l2 l3 h12 h23
      cases l2 with
      | nil => simp [chars_lt] at h12
      | cons b bs =>
        cases l3 with
        | nil => simp [chars_lt] at h23
        | cons c cs =>
          simp only [chars_lt] at h12 h23 ⊢
          split_ifs at h12 h23 ⊢ <;> first | rfl | omega | exact ih bs cs h12 h23
  have htri : ∀ (l1 l2 : List Char), chars_lt l1 l2 = false →
      chars_lt l2 l1 = false → l1 = l2 := by
    intro l1
    induction l1 with
    | nil => intro l2 h12 h21; cases l2 <;> simp_all [chars_lt]
    | cons a as ih =>
      intro l2 h12 h21
      cases l2 with
      | nil => simp [chars_lt] at h21
      | cons b bs =>
        simp only [chars_lt] at h12 h21
        split_ifs at h12 h21 with h1 h2
        · have hab : a = b := by
            apply Char.ext
            apply UInt32.ext
            simp only [Char.toNat] at h1 h2
            omega
          rw [hab, ih bs h12 h21]
  intro a b c hab hbc
  unfold ledger_le str_le at hab hbc ⊢
  simp only [Bool.not_eq_true'] at hab hbc ⊢
  cases hca : chars_lt c.data a.data with
  | false => rfl
  | true =>
    cases hbc2 : chars_lt b.data c.data with
    | true =>
      rw [htrans _ _ _ hbc2 hca] at hab
      exact hab
    | false =>
      rw [htri _ _ hbc2 hbc, hca] at hab
      exact hab

/-- The `student_id_patterns` list of `_identify_document_and_student`
(verbatim Python regex source strings). -/
def student_id_patterns : List String :=
  [ "Student ID#?\\s*:?\\s*(\\d\x7b6\x7d)",
    "Student ID#?\\s*:?\\s*(\\d\x7b5\x7d)",
    "Student ID[#:\\s]*(\\d\x7b6\x7d)",
    "Student ID[#:\\s]*(\\d\x7b5\x7d)",
    "学号[#:\\s]*(\\d\x7b6\x7d)",
    "学号[#:\\s]*(\\d\x7b5\x7d)",
    "N°\\s*de\\s*identificación\\s*del\\s*estudiante[#:\\s]*(\\d\x7b6\x7d)",
    "N°\\s*de\\s*identificación\\s*del\\s*estudiante[#:\\s]*(\\d\x7b5\x7d)" ]

/-- The `name_patterns` list of `_identify_document_and_student`; the two
f-string patterns interpolate the already-extracted student id. -/
def name_patterns (student_id : String) : List String :=
  [ "Name:\\s*([A-Za-z][A-Za-z\\s\\\x27-]\x7b2,40\x7d?)(?:\\s+Student ID|\\s+Grade|\\n)",
    "Student:\\s*([A-Za-z][A-Za-z\\s\\\x27-]\x7b2,40\x7d?)(?:\\s+Student ID|\\s+Grade|\\n)",
    "(?:Name|Student)[:\\s]+([A-Za-z][A-Za-z\\s\\\x27-]\x7b2,40\x7d?)\\s+Student ID[#:\\s]*"
      ++ student_id,
    "(?:Name|Student)[:\\s]+([A-Za-z][A-Za-z\\s\\\x27-]\x7b2,40\x7d?)\\s+Student\\s+ID",
    "([A-Za-z][A-Za-z\\s\\\x27-]\x7b2,40\x7d)\\s+" ++ student_id,
    "学生[:\\s]*([A-Za-z\\s\\u4e00-\\u9fff\\\x27-]+?)(?:\\s+学号|\\n)",
    "Nombre[:\\s]+([A-Za-z\\s\\\x27-]+?)(?:\\s+Grado|\\s+N°|\\n)",
    "Estudiante[:\\s]+([A-Za-z\\s\\\x27-]+?)(?:\\s+Grado|\\n)" ]

/-- The `noise_words` list used to validate an extracted name. -/
def noise_words : List String :=
  ["student id", "grade", "level", "school", "status", "test id"]

/-- Substring test on character lists (Python `needle in hay`). -/
def char_list_contains (hay needle : List Char) : Bool :=
  (List.range (hay.length + 1)).any fun i => needle.isPrefixOf (hay.drop i)

/-- Collapse every whitespace run to a single space
(`re.sub` with pattern `\s+` and replacement a single space). -/
def collapse_whitespace (s : String) : String :=
  String.mk ((s.toList.foldl
    (fun (acc : List Char × Bool) c =>
      if c.isWhitespace then (if acc.2 then acc.1 else acc.1 ++ [' '], true)
      else (acc.1 ++ [c], false)) ([], false)).1)

/-- Characters stripped from the edges of a candidate name
(the character class of whitespace, hyphen and apostrophe). -/
def name_edge_char (c : Char) : Bool :=
  c.isWhitespace || c == '-' || c == '\x27'

/-- Remove one leading and one trailing run of edge characters
(`re.sub` anchored at the start or the end of the string). -/
def strip_name_edges (s : String) : String :=
  String.mk (((s.toList.dropWhile name_edge_char).reverse.dropWhile name_edge_char).reverse)

/-- The cleanup chain applied to a raw captured name:
`.strip()`, whitespace collapse, edge stripping. -/
def clean_name (raw : String) : String :=
  strip_name_edges (collapse_whitespace (py_strip raw))

/-- The name validation of `_identify_document_and_student`:
length over 2, no digit character, no noise word as a case-insensitive
substring. -/
def is_valid_student_name (name : String) : Bool :=
  if 2 < name.length then
    if name.toList.any Char.isDigit then false
    else !(noise_words.any fun w =>
      char_list_contains (str_lower name).data (str_lower w).data)
  else false

/-- The name-extraction loop of `_identify_document_and_student`: first
pattern whose captured group survives cleanup and validation wins, else
the sentinel Unknown. -/
def extract_student_name (captureGroup : String → String → Option String)
    (student_id text : String) : String :=
  match (name_patterns student_id).findSome? (fun p =>
    match captureGroup p text with
    | none => none
    | some raw =>
      let name := clean_name raw
      if is_valid_student_name name then some name else none) with
  | some n => n
  | none => "Unknown"

/-- `_identify_document_and_student`, with `re.search` abstracted as the
oracles `search` (boolean match) and `captureGroup` (group 1 of a match). -/
def identify_document_and_student (search : String → String → Bool)
    (captureGroup : String → String → Option String) (text : String) :
    Option PageInfo :=
  let ntext := normalize_ligatures text
  match DOCUMENT_PATTERNS.find? (fun d => search d.pattern ntext) with
  | none => none
  | some d =>
    match student_id_patterns.findSome? (fun p => captureGroup p ntext) with
    | none => none
    | some sid =>
      some ⟨d.title, sid, extract_student_name captureGroup sid ntext⟩

/-- Append a value to a key of a Python dict-of-lists
(`if k not in d: d[k] = []` followed by `d[k].append(v)`); insertion
order of keys is preserved, as for a Python dict. -/
def dict_append {β : Type} (m : List (String × List β)) (k : String) (v : β) :
    List (String × List β) :=
  if m.any (fun e => e.1 = k) then
    m.map (fun e => if e.1 = k then (e.1, e.2 ++ [v]) else e)
  else m ++ [(k, [v])]

/-- `min(p[page_num] for p in pages)`; total via a default that is never
used on the nonempty lists produced by the pipeline. -/
def min_page_num : List AnchorEntry → Nat
  | [] => 0
  | e :: es => es.foldl (fun a x => Nat.min a x.page_num) e.page_num

/-- `max(relevant_pages)` for a nonempty list of naturals (the default 0
is absorbed by `Nat.max`). -/
def max_nat (l : List Nat) : Nat := l.foldl Nat.max 0

/-- The sort key relation of `sorted(student_page_map.items(), key=...)`:
ascending minimum anchor page. -/
def min_page_le (a b : String × List AnchorEntry) : Prop :=
  min_page_num a.2 ≤ min_page_num b.2

instance : DecidableRel min_page_le := fun _ _ => Nat.decLe _ _

instance : IsTotal (String × List AnchorEntry) min_page_le :=
  ⟨fun _ _ => Nat.le_total _ _⟩

instance : IsTrans (String × List AnchorEntry) min_page_le :=
  ⟨fun _ _ _ => Nat.le_trans⟩

/-- The `safe_upper_bound` entry of `student_boundaries[student_id]`:
walk the students sorted by first anchor page; the bound is one page
before the next student of the sorted order, or the last page of the
file for the final student. -/
def safe_upper_bound : List (String × List AnchorEntry) → String → Nat → Nat
  | [], _, total_pages => total_pages - 1
  | e :: rest, student_id, total_pages =>
    if e.1 = student_id then
      match rest with
      | [] => total_pages - 1
      | nxt :: _ => min_page_num nxt.2 - 1
    else safe_upper_bound rest student_id total_pages

/-- The `doc_groups` dict built from the anchor pages of one student:
pages grouped by document type, in insertion order. -/
def build_doc_groups (pages : List AnchorEntry) : List (String × List Nat) :=
  pages.foldl (fun gs p => dict_append gs p.doc_type p.page_num) []

/-- One iteration of the best-document-type selection loop: a group with
no page before `page_num` is skipped, otherwise the forward distance
`page_num - max(relevant_pages)` replaces the running best only when it
is strictly smaller. -/
def find_best_step (page_num : Nat) (best : Option (String × Nat))
    (g : String × List Nat) : Option (String × Nat) :=
  let relevant_pages := g.2.filter (fun p => p < page_num)
  if relevant_pages.isEmpty then best
  else
    let distance := page_num - max_nat relevant_pages
    match best with
    | none => some (g.1, distance)
    | some b => if distance < b.2 then some (g.1, distance) else some b

/-- The best-document-type selection loop of the continuation page
assignment: first group of strictly smallest forward distance wins. -/
def find_best_doc_type (groups : List (String × List Nat)) (page_num : Nat) :
    Option (String × Nat) :=
  groups.foldl (find_best_step page_num) none

/-- The type-specific assignment ceiling: 3 pages for the notification
document (it carries translation pages), 1 page otherwise. -/
def max_assign_distance (doc_type : String) : Nat :=
  if doc_type = "Notification of English Language Program Exit" then 3 else 1

/-- The body of the continuation/translation page loop for a single page
index: state is the current `doc_groups` together with the
`all_identified_pages` set. -/
def assign_page_step (belongs : Nat → String → Bool) (student_id : String)
    (st : List (String × List Nat) × List Nat) (page_num : Nat) :
    List (String × List Nat) × List Nat :=
  if page_num ∈ st.2 then st
  else if belongs page_num student_id then
    if st.1.isEmpty then st
    else
      match find_best_doc_type st.1 page_num with
      | none => st
      | some b =>
        if b.2 ≤ max_assign_distance b.1 then
          (dict_append st.1 b.1 page_num, page_num :: st.2)
        else st
  else st

/-- The full continuation/translation page loop over
`range(min_page, safe_upper_bound + 1)`. -/
def assign_pages_loop (belongs : Nat → String → Bool) (student_id : String)
    (st : List (String × List Nat) × List Nat) (page_range : List Nat) :
    List (String × List Nat) × List Nat :=
  page_range.foldl (assign_page_step belongs student_id) st

/-- Emission of one `DocumentInfo` per document type with a non-empty
page list; pages are sorted and the student name is taken from the first
anchor entry of the student. -/
def emit_documents (pdf_path student_id student_name : String)
    (groups : List (String × List Nat)) : List DocumentInfo :=
  groups.filterMap (fun g =>
    if g.2.isEmpty then none
    else some ⟨pdf_path, student_id, student_name, g.1,
      List.insertionSort (· ≤ ·) g.2, g.2.length⟩)

/-- The student name used at emission time: `pages[0].student_name`. -/
def first_anchor_name : List AnchorEntry → String
  | [] => "Unknown"
  | e :: _ => e.student_name

/-- The page range scanned for one student:
`range(min_page, safe_upper_bound + 1)`. -/
def student_range (sorted_students : List (String × List AnchorEntry))
    (e : String × List AnchorEntry) (total_pages : Nat) : List Nat :=
  let lo := min_page_num e.2
  let hi := safe_upper_bound sorted_students e.1 total_pages
  List.range' lo (hi + 1 - lo)

/-- The per-student body of `_create_documents_from_student_pages`:
group the anchor pages by document type, sweep the safe page range for
continuation/translation pages, then emit the `DocumentInfo` records,
threading the `all_identified_pages` set through. -/
def process_student_step (belongs : Nat → String → Bool) (pdf_path : String)
    (sorted_students : List (String × List AnchorEntry)) (total_pages : Nat)
    (acc : List DocumentInfo × List Nat) (e : String × List AnchorEntry) :
    List DocumentInfo × List Nat :=
  let st := assign_pages_loop belongs e.1 (build_doc_groups e.2, acc.2)
    (student_range sorted_students e total_pages)
  (acc.1 ++ emit_documents pdf_path e.1 (first_anchor_name e.2) st.1, st.2)

/-- `_create_documents_from_student_pages`.  The belongs-to-student check
(re-reading the PDF) is abstracted as `belongs`.  `student_page_map` is
the Python dict in insertion order; `all_identified_pages` starts as the
set of all anchor pages and is threaded through the per-student loops. -/
def create_documents_from_student_pages (belongs : Nat → String → Bool)
    (pdf_path : String) (student_page_map : List (String × List AnchorEntry))
    (total_pages : Nat) : List DocumentInfo :=
  let sorted_students := List.insertionSort min_page_le student_page_map
  let all_identified_pages :=
    student_page_map.foldl (fun acc e => acc ++ e.2.map (·.page_num)) []
  (student_page_map.foldl
    (process_student_step belongs pdf_path sorted_students total_pages)
    ([], all_identified_pages)).1

/-- `_process_pdf_file`, with per-page classification abstracted as
`classify` (the composition of text extraction and
`_identify_document_and_student`): build `student_page_map` page by page,
then resolve boundaries. -/
def process_pdf_file (classify : Nat → Option PageInfo)
    (belongs : Nat → String → Bool) (pdf_path : String) (total_pages : Nat) :
    List DocumentInfo :=
  let student_page_map := (List.range total_pages).foldl (fun m page_num =>
    match classify page_num with
    | none => m
    | some info =>
      dict_append m info.student_id ⟨page_num, info.document_type, info.student_name⟩)
    []
  create_documents_from_student_pages belongs pdf_path student_page_map total_pages

/-- The id patterns of `_check_page_belongs_to_student`, interpolating the
candidate student id. -/
def belongs_id_patterns (student_id : String) : List String :=
  [ "Student ID[#:\\s]*" ++ student_id,
    "学号[#:\\s]*" ++ student_id,
    "N°\\s*de\\s*identificación\\s*del\\s*estudiante[#:\\s]*" ++ student_id ]

/-- The `translation_markers` list of `_check_page_belongs_to_student`. -/
def translation_markers : List String :=
  [ "退出英语教学计划的通知",
    "Notificación de salida del programa de idioma inglés",
    "学生信息",
    "Información del estudiante" ]

/-- The signature/consent keyword pattern of the weak inference rule. -/
def signature_keywords_pattern : String := "signature|parent.*guardian|consulta"

/-- The contradicting-evidence pattern of the weak inference rule: any
5- or 6-digit id after a Student ID label. -/
def any_student_id_pattern : String := "Student ID[#:\\s]*\\d\x7b5,6\x7d"

/-- `_check_page_belongs_to_student` over the extracted text of one page
(`none` models a page index beyond the file or a raised extraction
error, both of which yield False in the source). -/
def check_page_belongs_to_student (search : String → String → Bool)
    (pageText : Option String) (student_id : String) : Bool :=
  match pageText with
  | none => false
  | some text =>
    let ntext := normalize_ligatures text
    if (belongs_id_patterns student_id).any (fun p => search p ntext) then true
    else if translation_markers.any (fun p => search p ntext) then true
    else if search signature_keywords_pattern ntext &&
        !search any_student_id_pattern ntext then true
    else false

/-- One entry of the `incomplete_students` list of `create_combined_pdfs`
(the error key is only present on the exception path of the source). -/
structure IncompleteStudent where
  student_id : String
  student_name : String
  found_documents : List String
  missing_documents : List String
  total_pages : Nat
  error : Option String
deriving Repr, DecidableEq

/-- One entry of the `completed_students` list of `create_combined_pdfs`. -/
structure CompletedStudent where
  student_id : String
  student_name : String
  completed_date : String
  output_file : String
deriving Repr, DecidableEq

/-- The `required_docs` set (modelled as a list; only membership is used). -/
def required_docs : List String :=
  [ "Teacher Recommendation Form",
    "Reclassification Meeting",
    "Notification of English Language Program Exit" ]

/-- The name-resolution prelude of the per-student loop of
`create_combined_pdfs`: first document of the student with a non-empty
name other than Unknown, else the aggressive re-extraction fallback
`_extract_student_name_from_docs` (abstracted as `fallbackName`, since it
re-reads the PDF files). -/
def resolve_student_name (fallbackName : String → List DocumentInfo → String)
    (student_id : String) (docs : List DocumentInfo) : String :=
  let student_name :=
    match docs.find? (fun d =>
      d.student_id = student_id && !(d.student_name = "") &&
        !(d.student_name = "Unknown")) with
    | some d => d.student_name
    | none => "Unknown"
  if student_name = "Unknown" then fallbackName student_id docs else student_name

/-- The found-document-type set of one student (a Python set; modelled as
a deduplicated list, only membership matters). -/
def found_doc_types (docs : List DocumentInfo) : List String :=
  (docs.map (·.document_type)).dedup

/-- `required_docs.issubset(found_doc_types)`. -/
def has_complete_set (docs : List DocumentInfo) : Bool :=
  required_docs.all (fun t => (found_doc_types docs).contains t)

/-- The output filename
`{student_id}_{student_name with spaces as underscores}_Reclassification_Paperwork.pdf`. -/
def output_filename (student_id student_name : String) : String :=
  student_id ++ "_" ++ str_replace student_name " " "_" ++ "_Reclassification_Paperwork.pdf"

/-- The completed-students entry appended for one complete student. -/
def mk_completed_student (now : String)
    (fallbackName : String → List DocumentInfo → String)
    (e : String × List DocumentInfo) : CompletedStudent :=
  ⟨e.1, resolve_student_name fallbackName e.1 e.2, now,
   output_filename e.1 (resolve_student_name fallbackName e.1 e.2)⟩

/-- The incomplete-students entry appended for a student with a missing
document type: `missing_documents` is the set difference of the required
set and the found set. -/
def mk_incomplete_student (fallbackName : String → List DocumentInfo → String)
    (e : String × List DocumentInfo) : IncompleteStudent :=
  ⟨e.1, resolve_student_name fallbackName e.1 e.2, found_doc_types e.2,
   required_docs.filter (fun t => !(found_doc_types e.2).contains t),
   (e.2.map (·.page_count)).sum, none⟩

/-- The per-student body of `create_combined_pdfs`: a student with the
complete required set contributes an output path and a completed entry,
any other student an incomplete entry. -/
def combine_student_step (now output_dir : String)
    (fallbackName : String → List DocumentInfo → String)
    (acc : List String × List IncompleteStudent × List CompletedStudent)
    (e : String × List DocumentInfo) :
    List String × List IncompleteStudent × List CompletedStudent :=
  if has_complete_set e.2 then
    (acc.1 ++ [output_dir ++ "/" ++ output_filename e.1
        (resolve_student_name fallbackName e.1 e.2)],
     acc.2.1, acc.2.2 ++ [mk_completed_student now fallbackName e])
  else
    (acc.1, acc.2.1 ++ [mk_incomplete_student fallbackName e], acc.2.2)

/-- `create_combined_pdfs`: route each student of the grouped dict to the
completed or the incomplete list.  `now` stands for
`datetime.now().strftime(...)` and `output_dir` for `self.output_dir`;
PDF writing is modelled as always succeeding, so the exception branch of
the source (which files the student as incomplete with the message
attached) is never taken here. -/
def create_combined_pdfs (now output_dir : String)
    (fallbackName : String → List DocumentInfo → String)
    (student_documents : List (String × List DocumentInfo)) :
    List String × List IncompleteStudent × List CompletedStudent :=
  student_documents.foldl (combine_student_step now output_dir fallbackName)
    ([], [], [])

/-- The fixed combination priority `order_priority` (`dict.get` default 999). -/
def order_priority (doc_type : String) : Nat :=
  if doc_type = "Notification of English Language Program Exit" then 1
  else if doc_type = "Reclassification Meeting" then 2
  else if doc_type = "Teacher Recommendation Form" then 3
  else 999

/-- The sort key relation of `_sort_documents_by_priority`: the Python
tuple key `(order_priority.get(x.document_type, 999), x.document_type)`
compared lexicographically. -/
def priority_key_le (a b : DocumentInfo) : Prop :=
  order_priority a.document_type < order_priority b.document_type ∨
    (order_priority a.document_type = order_priority b.document_type ∧
      str_le a.document_type b.document_type = true)

instance : DecidableRel priority_key_le := fun _ _ => by
  unfold priority_key_le; infer_instance

instance : IsTotal DocumentInfo priority_key_le := by
  constructor
  intro a b
  rcases Nat.lt_trichotomy (order_priority a.document_type) (order_priority b.document_type)
    with h | h | h
  · exact Or.inl (Or.inl h)
  · rcases (inferInstance : IsTotal String ledger_le).total
      a.document_type b.document_type with h2 | h2
    · exact Or.inl (Or.inr ⟨h, h2⟩)
    · exact Or.inr (Or.inr ⟨h.symm, h2⟩)
  · exact Or.inr (Or.inl h)

instance : IsTrans DocumentInfo priority_key_le := by
  constructor
  intro a b c hab hbc
  rcases hab with h1 | ⟨h1, h1s⟩ <;> rcases hbc with h2 | ⟨h2, h2s⟩
  · exact Or.inl (Nat.lt_trans h1 h2)
  · exact Or.inl (h2 ▸ h1)
  · exact Or.inl (h1 ▸ h2)
  · exact Or.inr ⟨h1.trans h2,
      (inferInstance : IsTrans String ledger_le).trans _ _ _ h1s h2s⟩

/-- `_sort_documents_by_priority` (Python `sorted` is stable; so is
insertion sort). -/
def sort_documents_by_priority (docs : List DocumentInfo) : List DocumentInfo :=
  List.insertionSort priority_key_le docs

/-- `_combine_documents`: pages of each document in order, each page
identified by source file and index; a page index at or beyond the page
count of its source file is logged and skipped.  `page_counts` stands for
`len(PyPDF2.PdfReader(file).pages)`. -/
def combine_documents (page_counts : String → Nat) (docs : List DocumentInfo) :
    List (String × Nat) :=
  docs.flatMap (fun d =>
    (d.pages.filter (fun p => p < page_counts d.file_path)).map
      (fun p => (d.file_path, p)))

/-- One row of the missing-paperwork CSV. -/
structure MissingPaperworkRow where
  studentID : String
  studentName : String
  missingDocuments : String
  foundDocuments : String
  errorText : String
deriving Repr, DecidableEq

/-- The row written for one incomplete student: semicolon-joined document
lists, empty string for an absent error key. -/
def mk_missing_row (s : IncompleteStudent) : MissingPaperworkRow :=
  ⟨s.student_id, s.student_name,
   String.intercalate "; " s.missing_documents,
   String.intercalate "; " s.found_documents,
   s.error.getD ""⟩

/-- `export_missing_paperwork_csv` as a file-state transition: the first
component is the resulting content of the dated report file (`none` means
the file does not exist), the second the returned path.  With no
incomplete students the file is deleted if present and `None` is
returned; otherwise the file is overwritten with exactly one row per
incomplete student. -/
def export_missing_paperwork_csv (incomplete_students : List IncompleteStudent)
    (_previous_file : Option (List MissingPaperworkRow)) (output_path : String) :
    Option (List MissingPaperworkRow) × Option String :=
  if incomplete_students.isEmpty then (none, none)
  else (some (incomplete_students.map mk_missing_row), some output_path)

/-- One row of the completed-students ledger CSV. -/
structure CompletedRow where
  student_id : String
  student_name : String
  completed_date : String
  output_file : String
deriving Repr, DecidableEq

/-- Insert or overwrite one key of the `existing_students` dict
(existing keys keep their position, new keys are appended). -/
def upsert_row (m : List (String × CompletedRow)) (k : String) (v : CompletedRow) :
    List (String × CompletedRow) :=
  if m.any (fun e => e.1 = k) then
    m.map (fun e => if e.1 = k then (e.1, v) else e)
  else m ++ [(k, v)]

/-- The ledger row written for one newly completed student. -/
def mk_completed_row (s : CompletedStudent) : CompletedRow :=
  ⟨s.student_id, s.student_name, s.completed_date, s.output_file⟩

/-- `export_completed_students_csv` as a function from the existing rows
of the ledger file and the newly completed students to the rewritten
rows: existing rows keyed by Student ID, new entries upserted over them,
then one row per key in ascending key order.  With no completed students
nothing is read or written (`none`). -/
def export_completed_students_csv (existing_rows : List CompletedRow)
    (completed_students : List CompletedStudent) : Option (List CompletedRow) :=
  if completed_students.isEmpty then none
  else
    let existing := existing_rows.foldl (fun m r => upsert_row m r.student_id r) []
    let merged := completed_students.foldl
      (fun m s => upsert_row m s.student_id (mk_completed_row s)) existing
    let sorted_keys := List.insertionSort ledger_le (merged.map (·.1))
    some (sorted_keys.filterMap (fun k => (merged.find? (fun e => e.1 = k)).map (·.2)))

/-- The fields of the dict returned by `run` that the status claims are
about. -/
structure RunResult where
  status : String
  total_students : Nat
  created_files : List String
deriving Repr, DecidableEq

/-- `run`: empty grouped mapping yields NO_DOCUMENTS; otherwise the
status is SUCCESS exactly when `create_combined_pdfs` produced at least
one file, else INCOMPLETE_DOCUMENTS. -/
def run (now output_dir : String)
    (fallbackName : String → List DocumentInfo → String)
    (student_documents : List (String × List DocumentInfo)) : RunResult :=
  if student_documents.isEmpty then ⟨"NO_DOCUMENTS", 0, []⟩
  else
    let r := create_combined_pdfs now output_dir fallbackName student_documents
    ⟨if r.1.isEmpty then "INCOMPLETE_DOCUMENTS" else "SUCCESS",
     student_documents.length, r.1⟩

/-! Concrete inputs used by counterexamples and witnesses. -/

/-- The notification document title (abbreviation for concrete inputs). -/
def notifT : String := "Notification of English Language Program Exit"

/-- A student page map with interleaved anchors: student 111111 anchors
at pages 0 and 5, student 222222 at page 3. -/
def c1_map : List (String × List AnchorEntry) :=
  [("111111", [⟨0, notifT, "Ana Lopez"⟩, ⟨5, notifT, "Ana Lopez"⟩]),
   ("222222", [⟨3, notifT, "Ben Kim"⟩])]

/-- A single student anchored once at page 0 of a six page file. -/
def c4_map : List (String × List AnchorEntry) :=
  [("111111", [⟨0, notifT, "Ana Lopez"⟩])]

/-- Concrete document groups for the assignment-rule witness: a meeting
anchor at page 0 and a notification anchor at page 1. -/
def c4_groups : List (String × List Nat) :=
  [("Reclassification Meeting", [0]),
   ("Notification of English Language Program Exit", [1])]

/-- Three documents covering the required set for one student. -/
def c5_docs_complete : List DocumentInfo :=
  [⟨"in/a.pdf", "111111", "Ana Lopez", "Teacher Recommendation Form", [0], 1⟩,
   ⟨"in/a.pdf", "111111", "Ana Lopez", "Reclassification Meeting", [1], 1⟩,
   ⟨"in/a.pdf", "111111", "Ana Lopez", notifT, [2, 3], 2⟩]

/-- Two documents missing the meeting form for a second student. -/
def c5_docs_incomplete : List DocumentInfo :=
  [⟨"in/a.pdf", "222222", "Ben Kim", "Teacher Recommendation Form", [4], 1⟩,
   ⟨"in/a.pdf", "222222", "Ben Kim", notifT, [5, 6], 2⟩]

/-- A grouped student-documents mapping with one complete and one
incomplete student. -/
def c5_map : List (String × List DocumentInfo) :=
  [("111111", c5_docs_complete), ("222222", c5_docs_incomplete)]

/-- An existing ledger whose rows are out of order. -/
def c7_existing : List CompletedRow :=
  [⟨"300300", "Cara Diaz", "2026-01-01", "old3.pdf"⟩,
   ⟨"100100", "Ana Lopez", "2026-01-01", "old1.pdf"⟩]

/-- Newly completed students, one overwriting an existing ledger row. -/
def c7_new : List CompletedStudent :=
  [⟨"200200", "Ben Kim", "2026-02-02", "new2.pdf"⟩,
   ⟨"100100", "Ana Lopez", "2026-02-02", "new1.pdf"⟩]

/-- The ledger contents after the first export run on `c7_existing`. -/
def c7_l1 : List CompletedRow :=
  [⟨"100100", "Ana Lopez", "2026-02-02", "new1.pdf"⟩,
   ⟨"200200", "Ben Kim", "2026-02-02", "new2.pdf"⟩,
   ⟨"300300", "Cara Diaz", "2026-01-01", "old3.pdf"⟩]

/-- An incomplete-student record for the missing-paperwork report. -/
def c9_incomplete : IncompleteStudent :=
  ⟨"222222", "Ben Kim", ["Teacher Recommendation Form", notifT],
   ["Reclassification Meeting"], 3, none⟩

/-! Theorems.  Each claim of the specification review is settled by one
named theorem below; shared list lemmas come first. -/

/-- A successful `findSome?` over the name patterns yields a validated
name: whatever the capture oracle returns, only a cleaned name passing
`is_valid_student_name` can be the extracted result. -/
theorem extract_name_unknown_or_valid
    (captureGroup : String → String → Option String) (student_id text : String) :
    extract_student_name captureGroup student_id text = "Unknown" ∨
      is_valid_student_name (extract_student_name captureGroup student_id text) = true := by
  cases hfs : (name_patterns student_id).findSome? (fun p =>
      match captureGroup p text with
      | none => none
      | some raw =>
        let name := clean_name raw
        if is_valid_student_name name then some name else none) with
  | none =>
    left
    unfold extract_student_name
    rw [hfs]
  | some n =>
    right
    unfold extract_student_name
    rw [hfs]
    obtain ⟨l1, a, l2, _, ha, _⟩ := List.findSome?_eq_some_iff.mp hfs
    simp only at ha
    cases hcg : captureGroup a text with
    | none => rw [hcg] at ha; exact absurd ha (by simp)
    | some raw =>
      rw [hcg] at ha
      simp only at ha
      by_cases hv : is_valid_student_name (clean_name raw) = true
      · rw [if_pos hv] at ha
        cases ha
        exact hv
      · rw [if_neg hv] at ha
        exact absurd ha (by simp)

/-- Appending to a dict of lists adds exactly the new value to the pool
of stored values. -/
theorem dict_append_flatMap {β : Type} (gs : List (String × List β)) (k : String)
    (v x : β) (h : x ∈ (dict_append gs k v).flatMap (·.2)) :
    x ∈ gs.flatMap (·.2) ∨ x = v := by
  unfold dict_append at h
  split at h
  · rw [List.mem_flatMap] at h
    obtain ⟨e, he, hx⟩ := h
    rw [List.mem_map] at he
    obtain ⟨e0, he0, rfl⟩ := he
    by_cases hk : e0.1 = k
    · rw [if_pos hk] at hx
      simp only at hx
      rw [List.mem_append] at hx
      rcases hx with hx | hx
      · exact Or.inl (List.mem_flatMap.mpr ⟨e0, he0, hx⟩)
      · exact Or.inr (List.mem_singleton.mp hx)
    · rw [if_neg hk] at hx
      exact Or.inl (List.mem_flatMap.mpr ⟨e0, he0, hx⟩)
  · rw [List.mem_flatMap] at h
    obtain ⟨e, he, hx⟩ := h
    rw [List.mem_append] at he
    rcases he with he | he
    · exact Or.inl (List.mem_flatMap.mpr ⟨e, he, hx⟩)
    · rw [List.mem_singleton] at he
      subst he
      exact Or.inr (List.mem_singleton.mp hx)

/-- One step of the continuation page loop can only add the current page
index to the page pool. -/
theorem assign_page_step_flatMap (belongs : Nat → String → Bool) (sid : String)
    (st : List (String × List Nat) × List Nat) (n x : Nat)
    (h : x ∈ ((assign_page_step belongs sid st n).1).flatMap (·.2)) :
    x ∈ st.1.flatMap (·.2) ∨ x = n := by
  unfold assign_page_step at h
  split at h
  · exact Or.inl h
  · split at h
    · split at h
      · exact Or.inl h
      · split at h
        · exact Or.inl h
        · split at h
          · exact dict_append_flatMap _ _ _ _ h
          · exact Or.inl h
    · exact Or.inl h

/-- The continuation page loop can only add page indices from the
scanned range to the page pool. -/
theorem assign_pages_loop_flatMap (belongs : Nat → String → Bool) (sid : String)
    (page_range : List Nat) :
    ∀ (st : List (String × List Nat) × List Nat) (x : Nat),
      x ∈ ((assign_pages_loop belongs sid st page_range).1).flatMap (·.2) →
      x ∈ st.1.flatMap (·.2) ∨ x ∈ page_range := by
  induction page_range with
  | nil => intro st x h; exact Or.inl h
  | cons n rest ih =>
    intro st x h
    rcases ih (assign_page_step belongs sid st n) x h with h2 | h2
    · rcases assign_page_step_flatMap belongs sid st n x h2 with h3 | h3
      · exact Or.inl h3
      · exact Or.inr (by rw [h3]; exact List.mem_cons_self _ _)
    · exact Or.inr (List.mem_cons_of_mem _ h2)

/-- The pages initially grouped by document type are exactly the anchor
pages of the student. -/
theorem build_doc_groups_flatMap (pages : List AnchorEntry) (x : Nat)
    (h : x ∈ (build_doc_groups pages).flatMap (·.2)) :
    ∃ a ∈ pages, a.page_num = x := by
  suffices hgen : ∀ (l : List AnchorEntry) (init : List (String × List Nat)),
      x ∈ (l.foldl (fun gs p => dict_append gs p.doc_type p.page_num) init).flatMap (·.2) →
      x ∈ init.flatMap (·.2) ∨ ∃ a ∈ l, a.page_num = x by
    rcases hgen pages [] h with h2 | h2
    · simp at h2
    · exact h2
  intro l
  induction l with
  | nil => intro init h2; exact Or.inl h2
  | cons a rest ih =>
    intro init h2
    rcases ih (dict_append init a.doc_type a.page_num) h2 with h3 | h3
    · rcases dict_append_flatMap _ _ _ _ h3 with h4 | h4
      · exact Or.inl h4
      · exact Or.inr ⟨a, List.mem_cons_self _ _, h4.symm⟩
    · obtain ⟨a2, ha2, hx⟩ := h3
      exact Or.inr ⟨a2, List.mem_cons_of_mem _ ha2, hx⟩

/-- An emitted document carries the student id of its group and only
pages drawn from the group pool. -/
theorem emit_documents_mem (pdf_path student_id student_name : String)
    (groups : List (String × List Nat)) (d : DocumentInfo)
    (h : d ∈ emit_documents pdf_path student_id student_name groups) :
    d.student_id = student_id ∧ ∀ p ∈ d.pages, p ∈ groups.flatMap (·.2) := by
  unfold emit_documents at h
  rw [List.mem_filterMap] at h
  obtain ⟨g, hg, hd⟩ := h
  split at hd
  · exact absurd hd (by simp)
  · cases hd
    refine ⟨rfl, ?_⟩
    intro p hp
    simp only [List.mem_insertionSort] at hp
    exact List.mem_flatMap.mpr ⟨g, hg, hp⟩

/-- Every document of the final fold comes from the processing step of
one entry of the student page map, with some state of the identified-page
set. -/
theorem create_fold_provenance (belongs : Nat → String → Bool) (pdf_path : String)
    (sorted_students : List (String × List AnchorEntry)) (total_pages : Nat)
    (l : List (String × List AnchorEntry)) :
    ∀ (acc : List DocumentInfo × List Nat) (d : DocumentInfo),
      d ∈ (l.foldl (process_student_step belongs pdf_path sorted_students total_pages) acc).1 →
      d ∈ acc.1 ∨ ∃ e ∈ l, ∃ ident : List Nat,
        d ∈ emit_documents pdf_path e.1 (first_anchor_name e.2)
          (assign_pages_loop belongs e.1 (build_doc_groups e.2, ident)
            (student_range sorted_students e total_pages)).1 := by
  induction l with
  | nil => intro acc d h; exact Or.inl h
  | cons e rest ih =>
    intro acc d h
    rw [List.foldl_cons] at h
    rcases ih _ d h with h2 | h2
    · unfold process_student_step at h2
      simp only [List.mem_append] at h2
      rcases h2 with h3 | h3
      · exact Or.inl h3
      · exact Or.inr ⟨e, List.mem_cons_self _ _, acc.2, h3⟩
    · obtain ⟨e2, he2, ident, hd⟩ := h2
      exact Or.inr ⟨e2, List.mem_cons_of_mem _ he2, ident, hd⟩

/-- Distinct entries of an association list with nodup keys are equal as
soon as their keys agree. -/
theorem nodup_keys_eq {β : Type} {l : List (String × β)}
    (h : (l.map (·.1)).Nodup) {e1 e2 : String × β}
    (h1 : e1 ∈ l) (h2 : e2 ∈ l) (hk : e1.1 = e2.1) : e1 = e2 := by
  induction l with
  | nil => cases h1
  | cons a rest ih =>
    rw [List.map_cons, List.nodup_cons] at h
    rcases List.mem_cons.mp h1 with rfl | h1m
    · rcases List.mem_cons.mp h2 with rfl | h2m
      · rfl
      · exact absurd (hk ▸ List.mem_map_of_mem (·.1) h2m) h.1
    · rcases List.mem_cons.mp h2 with rfl | h2m
      · exact absurd (hk ▸ List.mem_map_of_mem (·.1) h1m) h.1
      · exact ih h.2 h1m h2m

/-- The safe upper bound of a student stays strictly below the first
anchor page of any student whose first anchor page comes later. -/
theorem safe_upper_bound_lt_aux (total_pages : Nat) :
    ∀ (S : List (String × List AnchorEntry)), List.Sorted min_page_le S →
      (S.map (·.1)).Nodup → ∀ {A B : String × List AnchorEntry}, A ∈ S → B ∈ S →
      min_page_num A.2 < min_page_num B.2 →
      safe_upper_bound S A.1 total_pages < min_page_num B.2 := by
  intro S
  induction S with
  | nil => intro _ _ A B hA; cases hA
  | cons e rest ih =>
    intro hsort hnodup A B hA hB hlt
    rw [List.sorted_cons] at hsort
    rw [List.map_cons, List.nodup_cons] at hnodup
    by_cases hAe : e.1 = A.1
    · have hAeq : A = e := by
        rcases List.mem_cons.mp hA with rfl | hAm
        · rfl
        · exact absurd (hAe ▸ List.mem_map_of_mem (·.1) hAm) hnodup.1
      have hBrest : B ∈ rest := by
        rcases List.mem_cons.mp hB with rfl | hBm
        · rw [hAeq] at hlt; exact absurd hlt (Nat.lt_irrefl _)
        · exact hBm
      cases hr : rest with
      | nil => rw [hr] at hBrest; cases hBrest
      | cons nxt rest2 =>
        subst hr
        have hres : safe_upper_bound (e :: nxt :: rest2) A.1 total_pages =
            min_page_num nxt.2 - 1 := by
          simp only [safe_upper_bound, if_pos hAe]
        rw [hres]
        have hnxtB : min_page_num nxt.2 ≤ min_page_num B.2 := by
          rcases List.mem_cons.mp hBrest with rfl | hBm2
          · exact Nat.le_refl _
          · have hs2 := hsort.2
            rw [List.sorted_cons] at hs2
            exact hs2.1 B hBm2
        have hBpos : 0 < min_page_num B.2 := Nat.lt_of_le_of_lt (Nat.zero_le _) hlt
        omega
    · have hArest : A ∈ rest := by
        rcases List.mem_cons.mp hA with rfl | hAm
        · exact absurd rfl hAe
        · exact hAm
      have hBrest : B ∈ rest := by
        rcases List.mem_cons.mp hB with rfl | hBm
        · have : min_page_num B.2 ≤ min_page_num A.2 := hsort.1 A hArest
          omega
        · exact hBm
      have hres : safe_upper_bound (e :: rest) A.1 total_pages =
          safe_upper_bound rest A.1 total_pages := by
        simp only [safe_upper_bound, if_neg hAe]
      rw [hres]
      exact ih hsort.2 hnodup.2 hArest hBrest hlt

/-- The safe upper bound computed from the sorted student list is
strictly below the first anchor of any later-starting student. -/
theorem safe_upper_bound_lt {student_page_map : List (String × List AnchorEntry)}
    {A B : String × List AnchorEntry}
    (hnodup : (student_page_map.map (·.1)).Nodup)
    (hA : A ∈ student_page_map) (hB : B ∈ student_page_map)
    (hlt : min_page_num A.2 < min_page_num B.2) (total_pages : Nat) :
    safe_upper_bound (List.insertionSort min_page_le student_page_map) A.1 total_pages <
      min_page_num B.2 := by
  apply safe_upper_bound_lt_aux total_pages
  · exact List.sorted_insertionSort min_page_le student_page_map
  · exact ((List.perm_insertionSort min_page_le student_page_map).map (·.1)).nodup_iff.mpr hnodup
  · exact (List.mem_insertionSort min_page_le).mpr hA
  · exact (List.mem_insertionSort min_page_le).mpr hB
  · exact hlt

/-- C1 (amended): for two students A and B of the same file with A's
first anchor page before B's, every page of a `DocumentInfo` emitted for
A is either one of A's own anchor pages or lies strictly below B's first
anchor page.  (The claim as frozen also forbids anchor pages of A at or
beyond B's first anchor, which the code does not enforce; see the
counterexample.) -/
theorem boundary_pages_anchor_or_below_next (belongs : Nat → String → Bool)
    (pdf_path : String) (student_page_map : List (String × List AnchorEntry))
    (total_pages : Nat) (A B : String × List AnchorEntry)
    (hnodup : (student_page_map.map (·.1)).Nodup)
    (hA : A ∈ student_page_map) (hB : B ∈ student_page_map)
    (hlt : min_page_num A.2 < min_page_num B.2) :
    ∀ d ∈ create_documents_from_student_pages belongs pdf_path student_page_map total_pages,
      d.student_id = A.1 →
      ∀ p ∈ d.pages, (∃ a ∈ A.2, a.page_num = p) ∨ p < min_page_num B.2 := by
  intro d hd hsid p hp
  simp only [create_documents_from_student_pages] at hd
  rcases create_fold_provenance belongs pdf_path _ total_pages student_page_map _ d hd
    with h | ⟨e, he, ident, hdm⟩
  · cases h
  · obtain ⟨hid, hpages⟩ := emit_documents_mem _ _ _ _ _ hdm
    have heA : e = A := by
      apply nodup_keys_eq hnodup he hA
      rw [← hid, hsid]
    subst heA
    rcases assign_pages_loop_flatMap belongs e.1 _ _ p (hpages p hp) with hg | hr
    · exact Or.inl (build_doc_groups_flatMap e.2 p hg)
    · right
      unfold student_range at hr
      rw [List.mem_range'] at hr
      obtain ⟨i, hi, rfl⟩ := hr
      have hsu := safe_upper_bound_lt hnodup hA hB hlt total_pages
      omega

/-- C1 (counterexample to the claim as frozen): with interleaved anchors
the later anchor page of the earlier-starting student is kept in its
`DocumentInfo` even though it lies beyond the other student's first
anchor page. -/
theorem boundary_resolver_counterexample :
    ("111111", [⟨0, notifT, "Ana Lopez"⟩, ⟨5, notifT, "Ana Lopez"⟩]) ∈ c1_map ∧
    ("222222", [⟨3, notifT, "Ben Kim"⟩]) ∈ c1_map ∧
    min_page_num [⟨0, notifT, "Ana Lopez"⟩, ⟨5, notifT, "Ana Lopez"⟩] <
      min_page_num [(⟨3, notifT, "Ben Kim"⟩ : AnchorEntry)] ∧
    ¬ (∀ d ∈ create_documents_from_student_pages (fun _ _ => false) "in/scan.pdf" c1_map 6,
        d.student_id = "111111" →
        ∀ p ∈ d.pages, p < min_page_num [(⟨3, notifT, "Ben Kim"⟩ : AnchorEntry)]) := by
  decide

/-- Witness for the amended C1 at the concrete interleaved input: page 5
of student 111111 lies beyond the other student's first anchor, and the
amended bound holds there because it is an anchor page of 111111. -/
theorem boundary_pages_anchor_or_below_next_witness :
    (⟨"in/scan.pdf", "111111", "Ana Lopez", notifT, [0, 5], 2⟩ : DocumentInfo) ∈
      create_documents_from_student_pages (fun _ _ => false) "in/scan.pdf" c1_map 6 ∧
    ((∃ a ∈ [(⟨0, notifT, "Ana Lopez"⟩ : AnchorEntry), ⟨5, notifT, "Ana Lopez"⟩],
        a.page_num = 5) ∨
      5 < min_page_num [(⟨3, notifT, "Ben Kim"⟩ : AnchorEntry)]) :=
  ⟨by decide,
   boundary_pages_anchor_or_below_next (fun _ _ => false) "in/scan.pdf" c1_map 6
     ("111111", [⟨0, notifT, "Ana Lopez"⟩, ⟨5, notifT, "Ana Lopez"⟩])
     ("222222", [⟨3, notifT, "Ben Kim"⟩]) (by decide) (by decide) (by decide) (by decide)
     ⟨"in/scan.pdf", "111111", "Ana Lopez", notifT, [0, 5], 2⟩ (by decide) rfl
     5 (by decide)⟩

/-- Specification of the best-group fold: a returned best pair is either
the initial value or realized by a group of the list, and its distance
is minimal among the initial value and all groups holding a page before
the scanned page. -/
theorem find_best_fold_some (page : Nat) :
    ∀ (groups : List (String × List Nat)) (init : Option (String × Nat))
      (b : String × Nat),
      groups.foldl (find_best_step page) init = some b →
      (init = some b ∨ ∃ ps, (b.1, ps) ∈ groups ∧
        ps.filter (fun p => p < page) ≠ [] ∧
        b.2 = page - max_nat (ps.filter (fun p => p < page))) ∧
      (∀ t2 ps2, (t2, ps2) ∈ groups → ps2.filter (fun p => p < page) ≠ [] →
        b.2 ≤ page - max_nat (ps2.filter (fun p => p < page))) ∧
      (∀ b0, init = some b0 → b.2 ≤ b0.2) := by
  intro groups
  induction groups with
  | nil =>
    intro init b h
    simp only [List.foldl_nil] at h
    refine ⟨Or.inl h, ?_, ?_⟩
    · intro t2 ps2 h2
      cases h2
    · intro b0 h0
      rw [h] at h0
      cases h0
      exact Nat.le_refl _
  | cons g rest ih =>
    intro init b h
    rw [List.foldl_cons] at h
    have ihres := ih (find_best_step page init g) b h
    by_cases hf : (g.2.filter (fun p => p < page)).isEmpty = true
    · have hstep : find_best_step page init g = init := by
        simp only [find_best_step]
        rw [if_pos hf]
      rw [hstep] at ihres
      refine ⟨?_, ?_, ihres.2.2⟩
      · rcases ihres.1 with h1 | ⟨ps, hps, hne2, hb⟩
        · exact Or.inl h1
        · exact Or.inr ⟨ps, List.mem_cons_of_mem _ hps, hne2, hb⟩
      · intro t2 ps2 hmem hne2
        rcases List.mem_cons.mp hmem with heq | hmem2
        · have hps2 : ps2 = g.2 := congrArg Prod.snd heq
          rw [List.isEmpty_iff] at hf
          rw [hps2] at hne2
          exact absurd hf hne2
        · exact ihres.2.1 t2 ps2 hmem2 hne2
    · have hne : g.2.filter (fun p => p < page) ≠ [] := by
        intro hcon
        apply hf
        rw [hcon]
        rfl
      cases init with
      | none =>
        have hstep : find_best_step page none g =
            some (g.1, page - max_nat (g.2.filter (fun p => p < page))) := by
          simp only [find_best_step]
          rw [if_neg hf]
        rw [hstep] at ihres
        refine ⟨?_, ?_, ?_⟩
        · rcases ihres.1 with h1 | ⟨ps, hps, hne2, hb⟩
          · injection h1 with h1
            subst h1
            exact Or.inr ⟨g.2, by simp, hne, rfl⟩
          · exact Or.inr ⟨ps, List.mem_cons_of_mem _ hps, hne2, hb⟩
        · intro t2 ps2 hmem hne2
          rcases List.mem_cons.mp hmem with heq | hmem2
          · have hle := ihres.2.2 _ rfl
            have hps2 : ps2 = g.2 := congrArg Prod.snd heq
            rw [hps2]
            exact hle
          · exact ihres.2.1 t2 ps2 hmem2 hne2
        · intro b0 h0
          cases h0
      | some b0 =>
        by_cases hlt : page - max_nat (g.2.filter (fun p => p < page)) < b0.2
        · have hstep : find_best_step page (some b0) g =
              some (g.1, page - max_nat (g.2.filter (fun p => p < page))) := by
            simp only [find_best_step]
            rw [if_neg hf]
            simp only [if_pos hlt]
          rw [hstep] at ihres
          refine ⟨?_, ?_, ?_⟩
          · rcases ihres.1 with h1 | ⟨ps, hps, hne2, hb⟩
            · injection h1 with h1
              subst h1
              exact Or.inr ⟨g.2, by simp, hne, rfl⟩
            · exact Or.inr ⟨ps, List.mem_cons_of_mem _ hps, hne2, hb⟩
          · intro t2 ps2 hmem hne2
            rcases List.mem_cons.mp hmem with heq | hmem2
            · have hle := ihres.2.2 _ rfl
              have hps2 : ps2 = g.2 := congrArg Prod.snd heq
              rw [hps2]
              exact hle
            · exact ihres.2.1 t2 ps2 hmem2 hne2
          · intro b1 h1
            injection h1 with h1
            subst h1
            exact Nat.le_of_lt (Nat.lt_of_le_of_lt (ihres.2.2 _ rfl) hlt)
        · have hstep : find_best_step page (some b0) g = some b0 := by
            simp only [find_best_step]
            rw [if_neg hf]
            simp only [if_neg hlt]
          rw [hstep] at ihres
          refine ⟨?_, ?_, ?_⟩
          · rcases ihres.1 with h1 | ⟨ps, hps, hne2, hb⟩
            · exact Or.inl h1
            · exact Or.inr ⟨ps, List.mem_cons_of_mem _ hps, hne2, hb⟩
          · intro t2 ps2 hmem hne2
            rcases List.mem_cons.mp hmem with heq | hmem2
            · have hle := ihres.2.2 b0 rfl
              have hps2 : ps2 = g.2 := congrArg Prod.snd heq
              rw [hps2]
              exact Nat.le_trans hle (Nat.le_of_not_lt hlt)
            · exact ihres.2.1 t2 ps2 hmem2 hne2
          · intro b1 h1
            injection h1 with h1
            subst h1
            exact ihres.2.2 _ rfl

/-- C4 (amended): an eligible page (not yet identified, passing the
belongs-to-student check) is assigned to the document group of minimal
forward distance among the *current* group contents — anchor pages plus
previously assigned continuation pages, not anchor pages alone, see the
counterexample — and only when that distance is within the type ceiling
(3 for the notification type, 1 otherwise); if the minimal distance
exceeds the ceiling of the chosen group, the page is not assigned. -/
theorem continuation_assignment_rule (belongs : Nat → String → Bool) (sid : String)
    (groups : List (String × List Nat)) (ident : List Nat) (page : Nat)
    (hnotid : page ∉ ident) (hbel : belongs page sid = true) :
    (find_best_doc_type groups page = none →
      assign_page_step belongs sid (groups, ident) page = (groups, ident)) ∧
    (∀ t d, find_best_doc_type groups page = some (t, d) →
      (∃ ps, (t, ps) ∈ groups ∧ ps.filter (fun p => p < page) ≠ [] ∧
        d = page - max_nat (ps.filter (fun p => p < page))) ∧
      (∀ t2 ps2, (t2, ps2) ∈ groups → ps2.filter (fun p => p < page) ≠ [] →
        d ≤ page - max_nat (ps2.filter (fun p => p < page))) ∧
      (d ≤ max_assign_distance t →
        assign_page_step belongs sid (groups, ident) page =
          (dict_append groups t page, page :: ident)) ∧
      (max_assign_distance t < d →
        assign_page_step belongs sid (groups, ident) page = (groups, ident))) := by
  constructor
  · intro hn
    simp only [assign_page_step]
    rw [if_neg hnotid, if_pos hbel]
    by_cases hg : groups.isEmpty = true
    · rw [if_pos hg]
    · rw [if_neg hg, hn]
  · intro t d hs
    have hspec := find_best_fold_some page groups none (t, d) hs
    have hreal : ∃ ps, (t, ps) ∈ groups ∧ ps.filter (fun p => p < page) ≠ [] ∧
        d = page - max_nat (ps.filter (fun p => p < page)) := by
      rcases hspec.1 with h1 | h1
      · cases h1
      · exact h1
    have hgne : groups.isEmpty = false := by
      obtain ⟨ps, hps, _, _⟩ := hreal
      cases groups with
      | nil => cases hps
      | cons a l => rfl
    refine ⟨hreal, hspec.2.1, ?_, ?_⟩
    · intro hle
      simp only [assign_page_step]
      rw [if_neg hnotid, if_pos hbel, if_neg (by rw [hgne]; exact Bool.false_ne_true), hs]
      simp only [if_pos hle]
    · intro hgt
      simp only [assign_page_step]
      rw [if_neg hnotid, if_pos hbel, if_neg (by rw [hgne]; exact Bool.false_ne_true), hs]
      simp only [if_neg (Nat.not_le_of_lt hgt)]

/-- C4 (counterexample to the claim as frozen): with the belongs check
always passing, continuation pages chain — page 4 is assigned to the
notification group although its distance to the group anchor pages
(`4 - max [0] = 4`) exceeds the ceiling 3; the distance the code checks
is measured against previously assigned pages as well. -/
theorem continuation_distance_counterexample :
    create_documents_from_student_pages (fun _ _ => true) "in/scan.pdf" c4_map 6 =
      [⟨"in/scan.pdf", "111111", "Ana Lopez", notifT, [0, 1, 2, 3, 4, 5], 6⟩] ∧
    max_assign_distance notifT < 4 - max_nat ([0].filter (fun p => p < 4)) := by
  decide

/-- Witness for the amended C4 at a concrete state: page 2 is assigned
to the notification group (distance 1 to its anchor) rather than the
meeting group (distance 2). -/
theorem continuation_assignment_rule_witness :
    find_best_doc_type c4_groups 2 =
      some ("Notification of English Language Program Exit", 1) ∧
    assign_page_step (fun _ _ => true) "111111" (c4_groups, [0, 1]) 2 =
      (dict_append c4_groups "Notification of English Language Program Exit" 2,
       2 :: [0, 1]) :=
  ⟨by decide,
   ((continuation_assignment_rule (fun _ _ => true) "111111" c4_groups [0, 1] 2
      (by decide) rfl).2 "Notification of English Language Program Exit" 1
      (by decide)).2.2.1 (by decide)⟩

/-- A page whose text carries one of the translation markers passes the
belongs-to-student check whatever the candidate id (the marker rule does
not consult the id). -/
theorem check_page_belongs_of_marker (search : String → String → Bool)
    (text student_id marker : String) (hm : marker ∈ translation_markers)
    (h : search marker (normalize_ligatures text) = true) :
    check_page_belongs_to_student search (some text) student_id = true := by
  simp only [check_page_belongs_to_student]
  by_cases hid : (belongs_id_patterns student_id).any
      (fun p => search p (normalize_ligatures text)) = true
  · rw [if_pos hid]
  · rw [if_neg hid]
    have hmk : translation_markers.any (fun p => search p (normalize_ligatures text)) = true :=
      List.any_eq_true.mpr ⟨marker, hm, h⟩
    rw [if_pos hmk]

/-- Concrete evaluation of the boundary resolver on a five page file
with one anchored student and a belongs check passing only at page 1:
the page is pulled into the notification group at distance 1. -/
theorem create_docs_single_student (bel : Nat → String → Bool) (pdf_path : String)
    (hb1 : bel 1 "106874" = true) (hb2 : bel 2 "106874" = false)
    (hb3 : bel 3 "106874" = false) (hb4 : bel 4 "106874" = false) :
    create_documents_from_student_pages bel pdf_path
      [("106874", [⟨0, "Notification of English Language Program Exit", "Borui Hu"⟩])] 5 =
      [⟨pdf_path, "106874", "Borui Hu",
        "Notification of English Language Program Exit", [0, 1], 2⟩] := by
  have hr : List.range' 0 5 = [0, 1, 2, 3, 4] := rfl
  simp [create_documents_from_student_pages, process_student_step, student_range,
    min_page_num, safe_upper_bound, build_doc_groups, dict_append, assign_pages_loop,
    assign_page_step, find_best_doc_type, find_best_step, emit_documents,
    first_anchor_name, max_nat, max_assign_distance, List.insertionSort,
    List.orderedInsert, min_page_le, hb1, hb2, hb3, hb4, hr]

/-- C3: on the five page single file input where page 0 classifies as
the notification form for student 106874 (Borui Hu), page 1 carries only
a Spanish translation marker (so it classifies as nothing but passes the
belongs check), and the remaining pages pass no check, processing emits
exactly one `DocumentInfo`: the notification form of student 106874 with
page list [0, 1]. -/
theorem scenario_translation_page_assignment
    (classify : Nat → Option PageInfo) (search : String → String → Bool)
    (pageText : Nat → Option String) (pdf_path : String) (t1 : String)
    (h0 : classify 0 = some ⟨"Notification of English Language Program Exit",
      "106874", "Borui Hu"⟩)
    (hrest : ∀ n ∈ [1, 2, 3, 4], classify n = none)
    (ht1 : pageText 1 = some t1)
    (hmark : search "Notificación de salida del programa de idioma inglés"
      (normalize_ligatures t1) = true)
    (hblank : ∀ n ∈ [2, 3, 4],
      check_page_belongs_to_student search (pageText n) "106874" = false) :
    process_pdf_file classify
      (fun n sid => check_page_belongs_to_student search (pageText n) sid) pdf_path 5 =
      [⟨pdf_path, "106874", "Borui Hu",
        "Notification of English Language Program Exit", [0, 1], 2⟩] := by
  have hb1 : check_page_belongs_to_student search (pageText 1) "106874" = true := by
    rw [ht1]
    exact check_page_belongs_of_marker search t1 "106874" _ (by simp [translation_markers]) hmark
  have hmap : (List.range 5).foldl
      (fun (m : List (String × List AnchorEntry)) (page_num : Nat) =>
      match classify page_num with
      | none => m
      | some info =>
        dict_append m info.student_id ⟨page_num, info.document_type, info.student_name⟩)
      [] = [("106874",
        [⟨0, "Notification of English Language Program Exit", "Borui Hu"⟩])] := by
    have hr5 : List.range 5 = [0, 1, 2, 3, 4] := rfl
    rw [hr5]
    simp only [List.foldl_cons, List.foldl_nil]
    rw [h0, hrest 1 (by simp), hrest 2 (by simp), hrest 3 (by simp), hrest 4 (by simp)]
    rfl
  simp only [process_pdf_file]
  rw [hmap]
  exact create_docs_single_student _ pdf_path hb1 (hblank 2 (by simp)) (hblank 3 (by simp))
    (hblank 4 (by simp))

/-- Witness for C3 at a fully concrete classifier, page text table and
substring search. -/
theorem scenario_translation_page_assignment_witness :
    process_pdf_file
      (fun n => if n = 0 then some ⟨"Notification of English Language Program Exit",
        "106874", "Borui Hu"⟩ else none)
      (fun n sid => check_page_belongs_to_student
        (fun pat text => pat.data.isPrefixOf text.data)
        (if n = 1 then some "Notificación de salida del programa de idioma inglés"
         else some "") sid)
      "in/scan.pdf" 5 =
      [⟨"in/scan.pdf", "106874", "Borui Hu",
        "Notification of English Language Program Exit", [0, 1], 2⟩] :=
  scenario_translation_page_assignment
    (fun n => if n = 0 then some ⟨"Notification of English Language Program Exit",
      "106874", "Borui Hu"⟩ else none)
    (fun pat text => pat.data.isPrefixOf text.data)
    (fun n => if n = 1 then some "Notificación de salida del programa de idioma inglés"
     else some "")
    "in/scan.pdf"
    "Notificación de salida del programa de idioma inglés"
    rfl (by intro n hn; fin_cases hn <;> rfl) rfl (by decide)
    (by intro n hn; fin_cases hn <;> decide)

/-- C2: for every page text on which none of the three document-type
regex patterns matches (matching, as in the source, is performed on the
ligature-normalized text handed to `re.search`), the classifier
`_identify_document_and_student` returns no match, whatever the student
id and name extraction would have produced. -/
theorem classifier_never_fabricates_type (search : String → String → Bool)
    (captureGroup : String → String → Option String) (text : String)
    (h : ∀ d ∈ DOCUMENT_PATTERNS, search d.pattern (normalize_ligatures text) = false) :
    identify_document_and_student search captureGroup text = none := by
  have hf : DOCUMENT_PATTERNS.find?
      (fun d => search d.pattern (normalize_ligatures text)) = none :=
    List.find?_eq_none.mpr (fun d hd => by simp [h d hd])
  simp only [identify_document_and_student, hf]

/-- Witness for C2 at a concrete oracle and page text. -/
theorem classifier_never_fabricates_type_witness :
    (∀ d ∈ DOCUMENT_PATTERNS,
      (fun (_ _ : String) => false) d.pattern (normalize_ligatures "blank page") = false) ∧
    identify_document_and_student (fun _ _ => false) (fun _ _ => none) "blank page" = none :=
  ⟨fun _ _ => rfl,
   classifier_never_fabricates_type (fun _ _ => false) (fun _ _ => none) "blank page"
     (fun _ _ => rfl)⟩

/-- C10: whenever the classifier returns a result, the student name is
either the sentinel Unknown or a validated name: length over 2, no digit
character, and no noise word as a case-insensitive substring (the
conjunction computed by `is_valid_student_name`). -/
theorem classifier_name_validated (search : String → String → Bool)
    (captureGroup : String → String → Option String) (text : String) (r : PageInfo)
    (h : identify_document_and_student search captureGroup text = some r) :
    r.student_name = "Unknown" ∨ is_valid_student_name r.student_name = true := by
  simp only [identify_document_and_student] at h
  split at h
  · exact absurd h (by simp)
  · split at h
    · exact absurd h (by simp)
    · cases h
      exact extract_name_unknown_or_valid captureGroup _ _

/-- Witness for C10 at a concrete oracle; the captured digit string is
rejected by validation, so the name falls back to Unknown. -/
theorem classifier_name_validated_witness :
    identify_document_and_student (fun _ _ => true) (fun _ _ => some "106874") "page"
      = some ⟨"Teacher Recommendation Form", "106874", "Unknown"⟩ ∧
    ((⟨"Teacher Recommendation Form", "106874", "Unknown"⟩ : PageInfo).student_name
        = "Unknown" ∨
      is_valid_student_name
        (⟨"Teacher Recommendation Form", "106874", "Unknown"⟩ : PageInfo).student_name
        = true) :=
  ⟨rfl, classifier_name_validated (fun _ _ => true) (fun _ _ => some "106874") "page" _ rfl⟩

/-- Closed form of the routing fold of `create_combined_pdfs`: files and
completed entries come from the students with the complete required set,
incomplete entries from the others, in input order. -/
theorem combine_fold_spec (now output_dir : String)
    (fallbackName : String → List DocumentInfo → String) :
    ∀ (l : List (String × List DocumentInfo))
      (acc : List String × List IncompleteStudent × List CompletedStudent),
      l.foldl (combine_student_step now output_dir fallbackName) acc =
        (acc.1 ++ (l.filter (fun e => has_complete_set e.2)).map
          (fun e => output_dir ++ "/" ++ output_filename e.1
            (resolve_student_name fallbackName e.1 e.2)),
         acc.2.1 ++ (l.filter (fun e => !has_complete_set e.2)).map
           (mk_incomplete_student fallbackName),
         acc.2.2 ++ (l.filter (fun e => has_complete_set e.2)).map
           (mk_completed_student now fallbackName)) := by
  intro l
  induction l with
  | nil => intro acc; simp
  | cons e rest ih =>
    intro acc
    rw [List.foldl_cons, ih]
    by_cases hc : has_complete_set e.2 = true
    · simp [combine_student_step, hc, List.filter_cons, mk_completed_student]
    · rw [Bool.not_eq_true] at hc
      simp [combine_student_step, hc, List.filter_cons]

/-- C5: a student of the grouped mapping yields a combined PDF and a
completed entry exactly when its found document types cover the required
set (`has_complete_set`); one file is created per completed student; an
incomplete student is reported with precisely the set difference of
required and found types and contributes no completed entry. -/
theorem complete_set_routing (now output_dir : String)
    (fallbackName : String → List DocumentInfo → String)
    (student_documents : List (String × List DocumentInfo))
    (student_id : String) (docs : List DocumentInfo)
    (hmem : (student_id, docs) ∈ student_documents)
    (hnodup : (student_documents.map (·.1)).Nodup) :
    ((∃ c ∈ (create_combined_pdfs now output_dir fallbackName student_documents).2.2,
        c.student_id = student_id) ↔ has_complete_set docs = true) ∧
    (create_combined_pdfs now output_dir fallbackName student_documents).1.length =
      (create_combined_pdfs now output_dir fallbackName student_documents).2.2.length ∧
    (has_complete_set docs = false →
      ∃ inc ∈ (create_combined_pdfs now output_dir fallbackName student_documents).2.1,
        inc.student_id = student_id ∧
        (∀ t, t ∈ inc.missing_documents ↔
          (t ∈ required_docs ∧ ¬ t ∈ docs.map (·.document_type))) ∧
        ∀ c ∈ (create_combined_pdfs now output_dir fallbackName student_documents).2.2,
          c.student_id ≠ student_id) := by
  unfold create_combined_pdfs
  rw [combine_fold_spec now output_dir fallbackName student_documents ([], [], [])]
  simp only [List.nil_append]
  refine ⟨⟨?_, ?_⟩, by simp, ?_⟩
  · rintro ⟨c, hc, hcid⟩
    rw [List.mem_map] at hc
    obtain ⟨e, he, rfl⟩ := hc
    rw [List.mem_filter] at he
    have heid : e.1 = student_id := hcid
    have heq : e = (student_id, docs) := nodup_keys_eq hnodup he.1 hmem heid
    rw [heq] at he
    exact he.2
  · intro hcs
    exact ⟨mk_completed_student now fallbackName (student_id, docs),
      List.mem_map_of_mem _ (List.mem_filter.mpr ⟨hmem, hcs⟩), rfl⟩
  · intro hnc
    refine ⟨mk_incomplete_student fallbackName (student_id, docs),
      List.mem_map_of_mem _ (List.mem_filter.mpr ⟨hmem, by simp [hnc]⟩), rfl, ?_, ?_⟩
    · intro t
      simp [mk_incomplete_student, List.mem_filter, found_doc_types, List.mem_dedup]
    · rintro c hc hcid
      rw [List.mem_map] at hc
      obtain ⟨e, he, rfl⟩ := hc
      rw [List.mem_filter] at he
      have heid : e.1 = student_id := hcid
      have heq : e = (student_id, docs) := nodup_keys_eq hnodup he.1 hmem heid
      rw [heq] at he
      rw [he.2] at hnc
      cases hnc

/-- Witness for C5 at a concrete mapping with one complete student and
one student missing only the meeting form. -/
theorem complete_set_routing_witness :
    (∃ c ∈ (create_combined_pdfs "now" "out" (fun _ _ => "Unknown") c5_map).2.2,
      c.student_id = "111111") ∧
    (∃ inc ∈ (create_combined_pdfs "now" "out" (fun _ _ => "Unknown") c5_map).2.1,
      inc.student_id = "222222" ∧
      "Reclassification Meeting" ∈ inc.missing_documents ∧
      ¬ "Teacher Recommendation Form" ∈ inc.missing_documents) := by
  have h1 := complete_set_routing "now" "out" (fun _ _ => "Unknown") c5_map
    "111111" c5_docs_complete (by decide) (by decide)
  have h2 := complete_set_routing "now" "out" (fun _ _ => "Unknown") c5_map
    "222222" c5_docs_incomplete (by decide) (by decide)
  refine ⟨h1.1.mpr (by decide), ?_⟩
  obtain ⟨inc, hinc, hid, hmiss, _⟩ := h2.2.2 (by decide)
  exact ⟨inc, hinc, hid,
    hmiss "Reclassification Meeting" |>.mpr (by decide),
    fun hcon => by
      have := (hmiss "Teacher Recommendation Form").mp hcon
      exact this.2 (by decide)⟩

/-- Congruence for `flatMap` under pointwise equality on the list. -/
theorem flatMap_congr_mem {α β : Type} (l : List α) (f g : α → List β)
    (h : ∀ a ∈ l, f a = g a) : l.flatMap f = l.flatMap g := by
  induction l with
  | nil => rfl
  | cons a rest ih =>
    simp only [List.flatMap_cons]
    rw [h a (List.mem_cons_self _ _), ih (fun a2 ha2 => h a2 (List.mem_cons_of_mem _ ha2))]

/-- C6: for in-range, duplicate-free, pairwise disjoint documents the
combined output is exactly the concatenation of the page blocks in the
fixed priority order — it contains precisely the union of the documents
pages (so no page is skipped or fabricated), holds no duplicate page,
the document order is sorted by the fixed priority key, and no page
disjoint from the documents (such as another student's pages) appears. -/
theorem combiner_exact_union (page_counts : String → Nat) (docs : List DocumentInfo)
    (hrange : ∀ d ∈ docs, ∀ p ∈ d.pages, p < page_counts d.file_path)
    (hnodup : ∀ d ∈ docs, d.pages.Nodup)
    (hdisj : docs.Pairwise (fun d1 d2 => ∀ p ∈ d1.pages,
      d1.file_path = d2.file_path → ¬ p ∈ d2.pages)) :
    combine_documents page_counts (sort_documents_by_priority docs) =
      (sort_documents_by_priority docs).flatMap
        (fun d => d.pages.map (fun p => (d.file_path, p))) ∧
    (∀ fp p, (fp, p) ∈ combine_documents page_counts (sort_documents_by_priority docs) ↔
      ∃ d ∈ docs, d.file_path = fp ∧ p ∈ d.pages) ∧
    (combine_documents page_counts (sort_documents_by_priority docs)).Nodup ∧
    List.Sorted priority_key_le (sort_documents_by_priority docs) ∧
    (∀ other : DocumentInfo,
      (∀ d ∈ docs, d.file_path = other.file_path → ∀ p ∈ d.pages, ¬ p ∈ other.pages) →
      ∀ p ∈ other.pages,
        ¬ (other.file_path, p) ∈
          combine_documents page_counts (sort_documents_by_priority docs)) := by
  have hmemsort : ∀ d : DocumentInfo, d ∈ sort_documents_by_priority docs ↔ d ∈ docs :=
    fun d => List.mem_insertionSort priority_key_le
  have heq : combine_documents page_counts (sort_documents_by_priority docs) =
      (sort_documents_by_priority docs).flatMap
        (fun d => d.pages.map (fun p => (d.file_path, p))) := by
    unfold combine_documents
    apply flatMap_congr_mem
    intro d hd
    have hf : d.pages.filter (fun p => p < page_counts d.file_path) = d.pages :=
      List.filter_eq_self.mpr (fun p hp => by
        simpa using hrange d ((hmemsort d).mp hd) p hp)
    rw [hf]
  have hiff : ∀ fp p,
      (fp, p) ∈ combine_documents page_counts (sort_documents_by_priority docs) ↔
      ∃ d ∈ docs, d.file_path = fp ∧ p ∈ d.pages := by
    intro fp p
    rw [heq]
    simp only [List.mem_flatMap, List.mem_map]
    constructor
    · rintro ⟨d, hd, p2, hp2, heq2⟩
      cases heq2
      exact ⟨d, (hmemsort d).mp hd, rfl, hp2⟩
    · rintro ⟨d, hd, rfl, hp⟩
      exact ⟨d, (hmemsort d).mpr hd, p, hp, rfl⟩
  refine ⟨heq, hiff, ?_, ?_, ?_⟩
  · rw [heq, List.nodup_flatMap]
    constructor
    · intro d hd
      exact (hnodup d ((hmemsort d).mp hd)).map (fun a b h => congrArg Prod.snd h)
    · have hsym : ∀ {x y : DocumentInfo},
          (∀ p ∈ x.pages, x.file_path = y.file_path → ¬ p ∈ y.pages) →
          (∀ p ∈ y.pages, y.file_path = x.file_path → ¬ p ∈ x.pages) := by
        intro x y hxy p hpy hfe hpx
        exact hxy p hpx hfe.symm hpy
      have hps := ((List.perm_insertionSort priority_key_le docs).pairwise_iff hsym).mpr hdisj
      refine hps.imp ?_
      intro d1 d2 h12
      intro q hq1 hq2
      rw [List.mem_map] at hq1 hq2
      obtain ⟨p1, hp1, rfl⟩ := hq1
      obtain ⟨p2, hp2, heq2⟩ := hq2
      have hfp : d2.file_path = d1.file_path := congrArg Prod.fst heq2
      have hpp : p2 = p1 := congrArg Prod.snd heq2
      exact h12 p1 hp1 hfp.symm (hpp ▸ hp2)
  · exact List.sorted_insertionSort priority_key_le docs
  · intro other hsep p hp hmem
    obtain ⟨d, hd, hfp, hpd⟩ := (hiff other.file_path p).mp hmem
    exact hsep d hd hfp p hpd hp

/-- Witness for C6 at a concrete complete-student document list. -/
theorem combiner_exact_union_witness :
    combine_documents (fun _ => 10) (sort_documents_by_priority c5_docs_complete) =
      (sort_documents_by_priority c5_docs_complete).flatMap
        (fun d => d.pages.map (fun p => (d.file_path, p))) ∧
    (combine_documents (fun _ => 10) (sort_documents_by_priority c5_docs_complete)).Nodup := by
  have h := combiner_exact_union (fun _ => 10) c5_docs_complete
    (by decide) (by decide) (by decide)
  exact ⟨h.1, h.2.2.1⟩

/-- C8: the status returned by `run` is exactly one of the three values,
NO_DOCUMENTS precisely for an empty grouped mapping, SUCCESS precisely
when a combined PDF was produced, INCOMPLETE_DOCUMENTS precisely when
students were found but no file was produced. -/
theorem run_status_trichotomy (now output_dir : String)
    (fallbackName : String → List DocumentInfo → String)
    (student_documents : List (String × List DocumentInfo)) :
    ((run now output_dir fallbackName student_documents).status = "NO_DOCUMENTS" ∨
      (run now output_dir fallbackName student_documents).status = "SUCCESS" ∨
      (run now output_dir fallbackName student_documents).status = "INCOMPLETE_DOCUMENTS") ∧
    ((run now output_dir fallbackName student_documents).status = "NO_DOCUMENTS" ↔
      student_documents = []) ∧
    ((run now output_dir fallbackName student_documents).status = "SUCCESS" ↔
      student_documents ≠ [] ∧
        (run now output_dir fallbackName student_documents).created_files ≠ []) ∧
    ((run now output_dir fallbackName student_documents).status = "INCOMPLETE_DOCUMENTS" ↔
      student_documents ≠ [] ∧
        (run now output_dir fallbackName student_documents).created_files = []) := by
  cases student_documents with
  | nil => simp [run]
  | cons a l =>
    simp only [run, List.isEmpty_cons, Bool.false_eq_true, if_false]
    cases hc : (create_combined_pdfs now output_dir fallbackName (a :: l)).1 with
    | nil => simp [hc]
    | cons f fs => simp [hc]

/-- Connectedness of the lexicographic comparison: two lists neither of
which is smaller are equal. -/
theorem chars_lt_conn : ∀ (l1 l2 : List Char), chars_lt l1 l2 = false →
    chars_lt l2 l1 = false → l1 = l2 := by
  intro l1
  induction l1 with
  | nil => intro l2 h12 h21; cases l2 <;> simp_all [chars_lt]
  | cons a as ih =>
    intro l2 h12 h21
    cases l2 with
    | nil => simp [chars_lt] at h21
    | cons b bs =>
      simp only [chars_lt] at h12 h21
      split_ifs at h12 h21 with h1 h2
      · have hab : a = b := by
          apply Char.ext
          apply UInt32.ext
          simp only [Char.toNat] at h1 h2
          omega
        rw [hab, ih bs h12 h21]

/-- A weak inequality between distinct strings is strict. -/
theorem str_le_ne_lt {a b : String} (hle : str_le a b = true) (hne : a ≠ b) :
    str_lt a b = true := by
  unfold str_le at hle
  unfold str_lt
  rw [Bool.not_eq_true'] at hle
  cases hab : chars_lt a.data b.data with
  | false => exact absurd (String.ext (chars_lt_conn _ _ hab hle)) hne
  | true => rfl

/-- The key list of an upsert: unchanged for a present key, the new key
appended otherwise. -/
theorem upsert_row_keys (m : List (String × CompletedRow)) (k : String)
    (v : CompletedRow) :
    (upsert_row m k v).map (·.1) =
      if m.any (fun e => e.1 = k) then m.map (·.1) else m.map (·.1) ++ [k] := by
  unfold upsert_row
  split
  · rw [List.map_map]
    apply List.map_congr_left
    intro e _
    by_cases h : e.1 = k <;> simp [h]
  · simp

/-- An upsert keeps the keys of the dict free of duplicates. -/
theorem upsert_row_keys_nodup (m : List (String × CompletedRow)) (k : String)
    (v : CompletedRow) (h : (m.map (·.1)).Nodup) :
    ((upsert_row m k v).map (·.1)).Nodup := by
  rw [upsert_row_keys]
  split
  · exact h
  · rename_i hany
    rw [List.nodup_append]
    refine ⟨h, List.nodup_singleton _, ?_⟩
    intro a ha hb
    rw [List.mem_singleton] at hb
    subst hb
    apply hany
    rw [List.any_eq_true]
    obtain ⟨e, he, hk⟩ := List.mem_map.mp ha
    exact ⟨e, he, by simp [hk]⟩

/-- Key membership after an upsert. -/
theorem upsert_row_mem_keys (m : List (String × CompletedRow)) (k : String)
    (v : CompletedRow) (k2 : String) :
    k2 ∈ (upsert_row m k v).map (·.1) ↔ k2 ∈ m.map (·.1) ∨ k2 = k := by
  rw [upsert_row_keys]
  split
  · rename_i hany
    constructor
    · exact Or.inl
    · rintro (h | rfl)
      · exact h
      · obtain ⟨e, he, hk⟩ := List.any_eq_true.mp hany
        rw [decide_eq_true_eq] at hk
        exact List.mem_map.mpr ⟨e, he, hk⟩
  · simp

/-- An upsert with a key-coherent value keeps every stored row keyed by
its own student id. -/
theorem upsert_row_entry_key (m : List (String × CompletedRow)) (k : String)
    (v : CompletedRow) (hv : v.student_id = k)
    (h : ∀ e ∈ m, e.2.student_id = e.1) :
    ∀ e ∈ upsert_row m k v, e.2.student_id = e.1 := by
  intro e he
  unfold upsert_row at he
  split at he
  · obtain ⟨e0, he0, rfl⟩ := List.mem_map.mp he
    by_cases h0 : e0.1 = k
    · simp only [if_pos h0]
      rw [hv, h0]
    · simp only [if_neg h0]
      exact h e0 he0
  · rcases List.mem_append.mp he with he2 | he2
    · exact h e he2
    · rw [List.mem_singleton] at he2
      subst he2
      exact hv

/-- Provenance of an entry after an upsert: the fresh pair, or an
untouched entry with a different key. -/
theorem upsert_row_provenance (m : List (String × CompletedRow)) (k : String)
    (v : CompletedRow) (e : String × CompletedRow) (h : e ∈ upsert_row m k v) :
    e = (k, v) ∨ (e ∈ m ∧ e.1 ≠ k) := by
  unfold upsert_row at h
  split at h
  · obtain ⟨e0, he0, rfl⟩ := List.mem_map.mp h
    by_cases h0 : e0.1 = k
    · rw [if_pos h0, h0]
      exact Or.inl rfl
    · rw [if_neg h0]
      exact Or.inr ⟨he0, h0⟩
  · rename_i hany
    rcases List.mem_append.mp h with he2 | he2
    · refine Or.inr ⟨he2, ?_⟩
      intro hk
      exact hany (List.any_eq_true.mpr ⟨e, he2, by simp [hk]⟩)
    · rw [List.mem_singleton] at he2
      exact Or.inl he2

/-- Keys of an upsert fold stay duplicate free. -/
theorem fold_upsert_keys_nodup {α : Type} (κ : α → String) (ν : α → CompletedRow) :
    ∀ (l : List α) (init : List (String × CompletedRow)),
      ((init.map (·.1)).Nodup) →
      (((l.foldl (fun m x => upsert_row m (κ x) (ν x)) init).map (·.1)).Nodup) := by
  intro l
  induction l with
  | nil => intro init h; exact h
  | cons x rest ih =>
    intro init h
    exact ih _ (upsert_row_keys_nodup init (κ x) (ν x) h)

/-- Key membership after an upsert fold. -/
theorem fold_upsert_mem_keys {α : Type} (κ : α → String) (ν : α → CompletedRow) :
    ∀ (l : List α) (init : List (String × CompletedRow)) (k2 : String),
      k2 ∈ (l.foldl (fun m x => upsert_row m (κ x) (ν x)) init).map (·.1) ↔
        k2 ∈ init.map (·.1) ∨ ∃ x ∈ l, κ x = k2 := by
  intro l
  induction l with
  | nil => intro init k2; simp
  | cons x rest ih =>
    intro init k2
    rw [List.foldl_cons, ih]
    rw [upsert_row_mem_keys]
    constructor
    · rintro ((h | h) | h)
      · exact Or.inl h
      · exact Or.inr ⟨x, List.mem_cons_self _ _, h.symm⟩
      · obtain ⟨x2, hx2, hk⟩ := h
        exact Or.inr ⟨x2, List.mem_cons_of_mem _ hx2, hk⟩
    · rintro (h | h)
      · exact Or.inl (Or.inl h)
      · obtain ⟨x2, hx2, hk⟩ := h
        rcases List.mem_cons.mp hx2 with rfl | hx2m
        · exact Or.inl (Or.inr hk.symm)
        · exact Or.inr ⟨x2, hx2m, hk⟩

/-- Key coherence of the stored rows after an upsert fold. -/
theorem fold_upsert_entry_key {α : Type} (κ : α → String) (ν : α → CompletedRow)
    (hκν : ∀ x, (ν x).student_id = κ x) :
    ∀ (l : List α) (init : List (String × CompletedRow)),
      (∀ e ∈ init, e.2.student_id = e.1) →
      ∀ e ∈ l.foldl (fun m x => upsert_row m (κ x) (ν x)) init,
        e.2.student_id = e.1 := by
  intro l
  induction l with
  | nil => intro init h; exact h
  | cons x rest ih =>
    intro init h
    exact ih _ (upsert_row_entry_key init (κ x) (ν x) (hκν x) h)

/-- Provenance of an entry after an upsert fold: either keyed and valued
by one element of the folded list, or an untouched entry of the initial
dict with a key absent from the list. -/
theorem fold_upsert_provenance {α : Type} (κ : α → String) (ν : α → CompletedRow) :
    ∀ (l : List α) (init : List (String × CompletedRow))
      (e : String × CompletedRow),
      e ∈ l.foldl (fun m x => upsert_row m (κ x) (ν x)) init →
      (∃ x ∈ l, e.1 = κ x ∧ e.2 = ν x) ∨
        (e ∈ init ∧ ∀ x ∈ l, κ x ≠ e.1) := by
  intro l
  induction l with
  | nil => intro init e h; exact Or.inr ⟨h, by intro x hx; cases hx⟩
  | cons x rest ih =>
    intro init e h
    rw [List.foldl_cons] at h
    rcases ih _ e h with ⟨x2, hx2, hk, hv⟩ | ⟨hmem, hrest⟩
    · exact Or.inl ⟨x2, List.mem_cons_of_mem _ hx2, hk, hv⟩
    · rcases upsert_row_provenance init (κ x) (ν x) e hmem with heq | ⟨hin, hne⟩
      · subst heq
        exact Or.inl ⟨x, List.mem_cons_self _ _, rfl, rfl⟩
      · refine Or.inr ⟨hin, ?_⟩
        intro x2 hx2
        rcases List.mem_cons.mp hx2 with rfl | hx2m
        · exact fun hc => hne hc.symm
        · exact hrest x2 hx2m

/-- A key present in a dict can be looked up, yielding an entry of the
dict with that key. -/
theorem find_key_eq_some {merged : List (String × CompletedRow)} {k : String}
    (h : k ∈ merged.map (·.1)) :
    ∃ e, merged.find? (fun e => e.1 = k) = some e ∧ e ∈ merged ∧ e.1 = k := by
  have hsome : (merged.find? (fun e => e.1 = k)).isSome := by
    rw [List.find?_isSome]
    obtain ⟨e, he, hk⟩ := List.mem_map.mp h
    exact ⟨e, he, by simp [hk]⟩
  obtain ⟨e, he⟩ := Option.isSome_iff_exists.mp hsome
  refine ⟨e, he, List.mem_of_find?_eq_some he, ?_⟩
  have := List.find?_some he
  simpa using this

/-- Looking up a list of present keys yields rows whose student ids are
exactly those keys, in order. -/
theorem filterMap_lookup_ids (merged : List (String × CompletedRow))
    (hvk : ∀ e ∈ merged, e.2.student_id = e.1) :
    ∀ (keys : List String), (∀ k ∈ keys, k ∈ merged.map (·.1)) →
      ((keys.filterMap (fun k => (merged.find? (fun e => e.1 = k)).map (·.2))).map
        (·.student_id)) = keys := by
  intro keys
  induction keys with
  | nil => intro _; rfl
  | cons k ks ih =>
    intro hks
    obtain ⟨e, hfind, hmem, hkey⟩ := find_key_eq_some (hks k (List.mem_cons_self _ _))
    simp only [List.filterMap_cons, hfind, Option.map_some']
    rw [List.map_cons, hvk e hmem, hkey,
      ih (fun k2 hk2 => hks k2 (List.mem_cons_of_mem _ hk2))]

/-- Every row of a lookup-produced list is the value of some entry of
the dict. -/
theorem mem_filterMap_lookup {merged : List (String × CompletedRow)}
    {keys : List String} {r : CompletedRow}
    (h : r ∈ keys.filterMap (fun k => (merged.find? (fun e => e.1 = k)).map (·.2))) :
    ∃ e ∈ merged, r = e.2 := by
  rw [List.mem_filterMap] at h
  obtain ⟨k, _, hsome⟩ := h
  cases hfind : merged.find? (fun e => e.1 = k) with
  | none => rw [hfind] at hsome; cases hsome
  | some e =>
    rw [hfind, Option.map_some'] at hsome
    exact ⟨e, List.mem_of_find?_eq_some hfind, (Option.some.inj hsome).symm⟩

/-- Full specification of a successful completed-students export: the
written ledger has duplicate-free, strictly ascending student ids; every
row comes from a newly completed student (overwriting) or is an existing
row whose id no new student carries; and the written ids are exactly the
union of the existing and the new ids. -/
theorem export_some_spec (rows : List CompletedRow) (new : List CompletedStudent)
    (L : List CompletedRow)
    (h : export_completed_students_csv rows new = some L) :
    (L.map (·.student_id)).Nodup ∧
    List.Sorted (fun a b => str_lt a b = true) (L.map (·.student_id)) ∧
    (∀ r ∈ L, (∃ s ∈ new, r.student_id = s.student_id ∧ r = mk_completed_row s) ∨
      (r ∈ rows ∧ ∀ s ∈ new, s.student_id ≠ r.student_id)) ∧
    (∀ id : String, (∃ r ∈ L, r.student_id = id) ↔
      ((∃ r ∈ rows, r.student_id = id) ∨ ∃ s ∈ new, s.student_id = id)) := by
  have hL : L = (List.insertionSort ledger_le
      ((new.foldl (fun m s => upsert_row m s.student_id (mk_completed_row s))
        (rows.foldl (fun m r => upsert_row m r.student_id r) [])).map (·.1))).filterMap
      (fun k => ((new.foldl (fun m s => upsert_row m s.student_id (mk_completed_row s))
        (rows.foldl (fun m r => upsert_row m r.student_id r) [])).find?
          (fun e => e.1 = k)).map (·.2)) := by
    unfold export_completed_students_csv at h
    by_cases hne : new.isEmpty = true
    · rw [if_pos hne] at h
      cases h
    · rw [if_neg hne] at h
      exact (Option.some.inj h).symm
  set existingF := rows.foldl (fun m r => upsert_row m r.student_id r) [] with hexF
  set mergedF := new.foldl (fun m s => upsert_row m s.student_id (mk_completed_row s))
    existingF with hmgF
  have hvk : ∀ e ∈ mergedF, e.2.student_id = e.1 := by
    apply fold_upsert_entry_key (fun s => s.student_id) mk_completed_row (fun _ => rfl)
    apply fold_upsert_entry_key (fun r => r.student_id) (fun r => r) (fun _ => rfl)
    intro e he
    cases he
  have hkn : ((mergedF.map (·.1)).Nodup) := by
    apply fold_upsert_keys_nodup
    apply fold_upsert_keys_nodup
    exact List.nodup_nil
  have hsortmem : ∀ k : String,
      k ∈ List.insertionSort ledger_le (mergedF.map (·.1)) ↔ k ∈ mergedF.map (·.1) :=
    fun k => List.mem_insertionSort ledger_le
  have hids : L.map (·.student_id) = List.insertionSort ledger_le (mergedF.map (·.1)) := by
    rw [hL]
    exact filterMap_lookup_ids mergedF hvk _ (fun k hk => (hsortmem k).mp hk)
  have hidnodup : (L.map (·.student_id)).Nodup := by
    rw [hids]
    exact ((List.perm_insertionSort ledger_le (mergedF.map (·.1))).nodup_iff).mpr hkn
  have hsorted_le : List.Sorted ledger_le (L.map (·.student_id)) := by
    rw [hids]
    exact List.sorted_insertionSort ledger_le (mergedF.map (·.1))
  refine ⟨hidnodup, ?_, ?_, ?_⟩
  · have hcomb := List.Pairwise.and hsorted_le hidnodup
    exact hcomb.imp (fun hab => str_le_ne_lt hab.1 hab.2)
  · intro r hr
    rw [hL] at hr
    obtain ⟨e, he, rfl⟩ := mem_filterMap_lookup hr
    rcases fold_upsert_provenance (fun s => s.student_id) mk_completed_row new
        existingF e he with ⟨s, hs, hk, hv⟩ | ⟨hmem, hrest⟩
    · exact Or.inl ⟨s, hs, by rw [hv]; rfl, hv⟩
    · rcases fold_upsert_provenance (fun rr => rr.student_id) (fun rr => rr) rows
          [] e hmem with ⟨rr, hrr, hk2, hv2⟩ | ⟨hmem2, _⟩
      · refine Or.inr ⟨by rw [hv2]; exact hrr, ?_⟩
        intro s hs hc
        exact hrest s hs (by rw [hc, hvk e he])
      · cases hmem2
  · intro id
    constructor
    · rintro ⟨r, hr, rfl⟩
      have hmm : r.student_id ∈ L.map (·.student_id) := List.mem_map_of_mem _ hr
      rw [hids, hsortmem] at hmm
      rw [fold_upsert_mem_keys, fold_upsert_mem_keys] at hmm
      rcases hmm with (h2 | h2) | h2
      · cases h2
      · obtain ⟨rr, hrr, hk⟩ := h2
        exact Or.inl ⟨rr, hrr, hk⟩
      · obtain ⟨s, hs, hk⟩ := h2
        exact Or.inr ⟨s, hs, hk⟩
    · intro hcase
      have hmm : id ∈ mergedF.map (·.1) := by
        rw [fold_upsert_mem_keys, fold_upsert_mem_keys]
        rcases hcase with ⟨rr, hrr, hk⟩ | ⟨s, hs, hk⟩
        · exact Or.inl (Or.inr ⟨rr, hrr, hk⟩)
        · exact Or.inr ⟨s, hs, hk⟩
      rw [← hsortmem, ← hids] at hmm
      obtain ⟨r, hr, hk⟩ := List.mem_map.mp hmm
      exact ⟨r, hr, hk⟩

/-- C7: a non-empty newly-completed list makes the export write a ledger
merging new entries over existing rows keyed by Student ID (a row whose
id is carried by a new entry comes from the new list), and the ledger
written by a second run with the same list has exactly one row per
student id, strictly ascending by Student ID. -/
theorem ledger_merge_idempotent (existing_rows : List CompletedRow)
    (new : List CompletedStudent) (l1 l2 : List CompletedRow)
    (_hne : new ≠ [])
    (h1 : export_completed_students_csv existing_rows new = some l1)
    (h2 : export_completed_students_csv l1 new = some l2) :
    (export_completed_students_csv existing_rows new).isSome = true ∧
    (∀ id : String, (∃ r ∈ l1, r.student_id = id) ↔
      ((∃ r ∈ existing_rows, r.student_id = id) ∨ ∃ s ∈ new, s.student_id = id)) ∧
    (∀ r ∈ l1, (∃ s ∈ new, s.student_id = r.student_id) →
      ∃ s ∈ new, s.student_id = r.student_id ∧ r = mk_completed_row s) ∧
    (l2.map (·.student_id)).Nodup ∧
    List.Sorted (fun a b => str_lt a b = true) (l2.map (·.student_id)) := by
  have hs1 := export_some_spec existing_rows new l1 h1
  have hs2 := export_some_spec l1 new l2 h2
  refine ⟨by rw [h1]; rfl, hs1.2.2.2, ?_, hs2.1, hs2.2.1⟩
  intro r hr hex
  obtain ⟨s, hsmem, hsid⟩ := hex
  rcases hs1.2.2.1 r hr with ⟨s2, hs2m, hid2, hrow⟩ | ⟨_, hnone⟩
  · exact ⟨s2, hs2m, hid2.symm, hrow⟩
  · exact absurd hsid (hnone s hsmem)

/-- Witness for C7 at a concrete ledger and completion list. -/
theorem ledger_merge_idempotent_witness :
    (c7_l1.map (·.student_id)).Nodup ∧
    List.Sorted (fun a b => str_lt a b = true) (c7_l1.map (·.student_id)) ∧
    (∃ r ∈ c7_l1, r.student_id = "200200") := by
  have h := ledger_merge_idempotent c7_existing c7_new c7_l1 c7_l1
    (by decide) (by decide) (by decide)
  refine ⟨h.2.2.2.1, h.2.2.2.2, ?_⟩
  exact (h.2.1 "200200").mpr (Or.inr
    ⟨⟨"200200", "Ben Kim", "2026-02-02", "new2.pdf"⟩, by decide, rfl⟩)

/-- C9: the missing-paperwork report is regenerated from scratch: the
resulting file state does not depend on the previous file contents, it
is deleted (and no path returned) when there is no incomplete student,
and otherwise it is overwritten with exactly one row per incomplete
student carrying the five report columns. -/
theorem missing_paperwork_regenerated (incomplete_students : List IncompleteStudent)
    (prev prev2 : Option (List MissingPaperworkRow)) (output_path : String) :
    export_missing_paperwork_csv incomplete_students prev output_path =
      export_missing_paperwork_csv incomplete_students prev2 output_path ∧
    export_missing_paperwork_csv incomplete_students prev output_path =
      (if incomplete_students.isEmpty then (none, none)
       else (some (incomplete_students.map mk_missing_row), some output_path)) ∧
    ((export_missing_paperwork_csv incomplete_students prev output_path).1.getD []).length =
      (if incomplete_students.isEmpty then 0 else incomplete_students.length) := by
  refine ⟨rfl, rfl, ?_⟩
  by_cases h : incomplete_students.isEmpty <;>
    simp [export_missing_paperwork_csv, h]

end Reclassification
